import Mathlib

/-!
Verification of the VOICEVOX speech-synthesis orchestration engine of
prototypus-ai-doc-go (package `internal/voicevox`).

Shallow embedding conventions:
* byte buffers (`[]byte`) are `List Nat`, each element a byte value;
  32-bit size fields are read/written little-endian, and the `uint32`
  accumulations of the Go code wrap modulo 2^32 exactly as in the source
  (the model states Go slice lengths as plain `Nat`, i.e. it assumes
  buffers shorter than 2^32 bytes so that `uint32(len(...))` conversions
  in the source do not truncate);
* Go strings are lists of runes (`List Char`), matching the rune-based
  arithmetic (`utf8.RuneCountInString`, `[]rune(s)`) of the parser;
* Go maps are association lists (`List (String × Int)` etc.) looked up
  with `List.lookup`;
* concurrency is modelled by quantifying over the order in which worker
  results are delivered on the results channel.
-/

set_option maxRecDepth 100000

namespace Voicevox

/-! ## WAV header constants (src/internal/voicevox/audio.go) -/

def RiffChunkIDSize : Nat := 4
def RiffChunkSizeField : Nat := 4
def WaveIDSize : Nat := 4
def WavRiffHeaderSize : Nat := RiffChunkIDSize + RiffChunkSizeField + WaveIDSize

def FmtChunkIDSize : Nat := 4
def FmtChunkSizeField : Nat := 4
def FmtChunkDataSize : Nat := 16
def WavFmtChunkSize : Nat := FmtChunkIDSize + FmtChunkSizeField + FmtChunkDataSize

def DataChunkIDSize : Nat := 4
def DataChunkSizeField : Nat := 4
def WavDataHeaderSize : Nat := DataChunkIDSize + DataChunkSizeField

def WavTotalHeaderSize : Nat := WavRiffHeaderSize + WavFmtChunkSize + WavDataHeaderSize

/-- `2^32`, the modulus of Go's `uint32` arithmetic. -/
def U32 : Nat := 4294967296

/-! ## Little-endian 32-bit fields (`encoding/binary`) -/

/-- `binary.LittleEndian.Uint32(l[off:off+4])`. -/
def readLE32 (l : List Nat) (off : Nat) : Nat :=
  l.getD off 0 + 256 * l.getD (off + 1) 0 + 65536 * l.getD (off + 2) 0 +
    16777216 * l.getD (off + 3) 0

/-- The four bytes `binary.LittleEndian.PutUint32` writes for value `v`. -/
def le32 (v : Nat) : List Nat :=
  [v % 256, v / 256 % 256, v / 65536 % 256, v / 16777216 % 256]

/-- Go's `copy(dst[off:], src)`: overwrite `dst` from position `off` with as
much of `src` as fits, leaving the rest of `dst` unchanged. -/
def writeBytes : List Nat → Nat → List Nat → List Nat
  | [], _, _ => []
  | d :: ds, n + 1, src => d :: writeBytes ds n src
  | d :: ds, 0, [] => d :: ds
  | _ :: ds, 0, s :: ss => s :: writeBytes ds 0 ss

/-! ## AudioContainerCodec (src/internal/voicevox/audio.go) -/

/-- The three ways a Go call in this codec can come back: a normal return,
an error return, or a runtime panic (a slice-bounds violation crashes the
program instead of returning anything). -/
inductive GoResult (ε α : Type) where
  | ok (a : α)
  | error (e : ε)
  | panic
deriving DecidableEq

/-- `extractAudioData` (audio.go): validate the buffer holds a full 44-byte
header, read the little-endian data-chunk size at bytes 40..43, and bound
the payload by `dataEndIndex := WavTotalHeaderSize + dataSize`, a `uint32`
sum that wraps mod `2^32`. The declared-length check compares the buffer
length against the wrapped index (buffer lengths are modelled below `2^32`,
where Go's `uint32(len(wavBytes))` cast is the identity); when it passes,
the slice `wavBytes[44:dataEndIndex]` panics whenever the wrapped index
fell below 44, and otherwise yields the payload. -/
def extractAudioData (wavBytes : List Nat) (index : Nat) :
    GoResult String (List Nat × Nat) :=
  if wavBytes.length < WavTotalHeaderSize then
    .error ("WAVファイル #" ++ toString index ++ " のヘッダーが短すぎます")
  else
    let dataSize := readLE32 wavBytes (WavTotalHeaderSize - DataChunkSizeField)
    let dataEndIndex := (WavTotalHeaderSize + dataSize) % U32
    if wavBytes.length < dataEndIndex then
      .error ("WAVファイル #" ++ toString index ++
        " のデータ長がヘッダーの記載と一致しません")
    else if dataEndIndex < WavTotalHeaderSize then
      .panic
    else
      .ok ((wavBytes.drop WavTotalHeaderSize).take
        (dataEndIndex - WavTotalHeaderSize), dataSize)

/-- `buildCombinedWav` (audio.go): allocate `44 + totalDataSize` zero bytes
(the `uint32` sum wraps mod 2^32), copy the 36-byte format header, overwrite
the RIFF chunk size field at offset 4, write `"data"` at offset 36, the
little-endian total size at offset 40, and the concatenated payload at 44. -/
def buildCombinedWav (formatHeader : List Nat) (rawData : List Nat)
    (totalDataSize : Nat) : List Nat :=
  let combinedWav := List.replicate ((WavTotalHeaderSize + totalDataSize) % U32) 0
  let riffChunkDataSize :=
    (WaveIDSize + WavFmtChunkSize + WavDataHeaderSize + totalDataSize) % U32
  let w1 := writeBytes combinedWav 0 formatHeader
  let w2 := writeBytes w1 RiffChunkIDSize (le32 riffChunkDataSize)
  let w3 := writeBytes w2 (WavRiffHeaderSize + WavFmtChunkSize) [100, 97, 116, 97]
  let w4 := writeBytes w3 (WavTotalHeaderSize - DataChunkSizeField)
    (le32 totalDataSize)
  writeBytes w4 WavTotalHeaderSize rawData

/-- The extraction/accumulation loop of `combineWavData`: extract every
buffer's payload, concatenating the payloads and summing the sizes in
`uint32` arithmetic; an extraction error is returned and an extraction
panic crashes the whole call. -/
def combineLoop : List (List Nat) → Nat → List Nat → Nat →
    GoResult String (List Nat × Nat)
  | [], _, rawData, totalDataSize => .ok (rawData, totalDataSize)
  | wavBytes :: rest, i, rawData, totalDataSize =>
    match extractAudioData wavBytes i with
    | .error e => .error e
    | .panic => .panic
    | .ok (dataChunk, dataSize) =>
      combineLoop rest (i + 1) (rawData ++ dataChunk)
        ((totalDataSize + dataSize) % U32)

/-- `combineWavData` (audio.go): reject an empty input list, take the first
36 bytes of the first buffer as shared format header, extract and
concatenate every payload, reject a zero total payload, and build the
combined buffer. -/
def combineWavData (wavFiles : List (List Nat)) : GoResult String (List Nat) :=
  match wavFiles with
  | [] => .error "結合するWAVデータがありません"
  | first :: _ =>
    if first.length < WavRiffHeaderSize + WavFmtChunkSize then
      .error "最初のWAVファイルのヘッダー（RIFF + FMT）が短すぎます"
    else
      let formatHeader := first.take (WavRiffHeaderSize + WavFmtChunkSize)
      match combineLoop wavFiles 0 [] 0 with
      | .error e => .error e
      | .panic => .panic
      | .ok (rawData, totalDataSize) =>
        if totalDataSize = 0 then
          .error "すべてのWAVファイルから抽出されたオーディオデータがゼロサイズです"
        else
          .ok (buildCombinedWav formatHeader rawData totalDataSize)

/-! ### Basic lemmas about the byte-buffer primitives -/

theorem writeBytes_length (d : List Nat) :
    ∀ (off : Nat) (s : List Nat), (writeBytes d off s).length = d.length := by
  induction d with
  | nil => intro off s; cases off <;> cases s <;> simp [writeBytes]
  | cons a d ih =>
    intro off s
    cases off with
    | zero => cases s with
      | nil => simp [writeBytes]
      | cons b t => simp [writeBytes, ih]
    | succ n => simp [writeBytes, ih]

/-- Positions before the write offset are untouched. -/
theorem writeBytes_getD_lt (d : List Nat) :
    ∀ (off : Nat) (s : List Nat) (i : Nat), i < off →
      (writeBytes d off s).getD i 0 = d.getD i 0 := by
  induction d with
  | nil => intro off s i _; cases off <;> cases s <;> simp [writeBytes]
  | cons a d ih =>
    intro off s i hi
    cases off with
    | zero => omega
    | succ n =>
      cases i with
      | zero => simp [writeBytes]
      | succ j =>
        simp only [writeBytes, List.getD_cons_succ]
        exact ih n s j (by omega)

/-- Positions inside the written window read back the source byte. -/
theorem writeBytes_getD_in (d : List Nat) :
    ∀ (off : Nat) (s : List Nat) (i : Nat), off ≤ i → i < off + s.length →
      i < d.length → (writeBytes d off s).getD i 0 = s.getD (i - off) 0 := by
  induction d with
  | nil => intro off s i _ _ h; simp at h
  | cons a d ih =>
    intro off s i h1 h2 h3
    cases off with
    | zero =>
      cases s with
      | nil => simp at h2
      | cons b t =>
        cases i with
        | zero => simp [writeBytes]
        | succ j =>
          simp only [writeBytes, List.getD_cons_succ, Nat.sub_zero]
          have := ih 0 t j (Nat.zero_le _) (by simpa using h2) (by simpa using h3)
          simpa using this
    | succ n =>
      cases i with
      | zero => omega
      | succ j =>
        simp only [writeBytes, List.getD_cons_succ, Nat.succ_sub_succ]
        exact ih n s j (by omega) (by omega) (by simpa using h3)

/-- Positions at or past the end of the written window are untouched. -/
theorem writeBytes_getD_ge (d : List Nat) :
    ∀ (off : Nat) (s : List Nat) (i : Nat), off + s.length ≤ i →
      (writeBytes d off s).getD i 0 = d.getD i 0 := by
  induction d with
  | nil => intro off s i _; cases off <;> cases s <;> simp [writeBytes]
  | cons a d ih =>
    intro off s i hi
    cases off with
    | zero =>
      cases s with
      | nil => simp [writeBytes]
      | cons b t =>
        cases i with
        | zero => simp at hi
        | succ j =>
          simp only [writeBytes, List.getD_cons_succ]
          exact ih 0 t j (by simp at hi ⊢; omega)
    | succ n =>
      cases i with
      | zero => simp [writeBytes]
      | succ j =>
        simp only [writeBytes, List.getD_cons_succ]
        exact ih n s j (by omega)

/-- Writing `s` at offset `off` into a buffer that ends exactly where `s`
ends makes the suffix from `off` equal to `s`. -/
theorem writeBytes_drop (d : List Nat) :
    ∀ (off : Nat) (s : List Nat), d.length = off + s.length →
      (writeBytes d off s).drop off = s := by
  induction d with
  | nil =>
    intro off s h
    have hs : s = [] := List.eq_nil_of_length_eq_zero (by simp at h; omega)
    subst hs
    cases off <;> simp [writeBytes]
  | cons a d ih =>
    intro off s h
    cases off with
    | zero =>
      cases s with
      | nil => simp at h
      | cons b t =>
        simp only [writeBytes, List.drop_zero]
        have := ih 0 t (by simp at h ⊢; omega)
        simpa using this
    | succ n =>
      simp only [writeBytes, List.drop_succ_cons]
      exact ih n s (by simp at h ⊢; omega)

theorem readLE32_le32 (v : Nat) (h : v < U32) :
    readLE32 (le32 v) 0 = v := by
  have hv : readLE32 (le32 v) 0 =
      v % 256 + 256 * (v / 256 % 256) + 65536 * (v / 65536 % 256) +
        16777216 * (v / 16777216 % 256) := by
    simp [readLE32, le32]
  rw [hv]
  simp only [U32] at h
  omega

theorem readLE32_lt (l : List Nat) (off : Nat)
    (h : ∀ i ∈ l, i < 256) (h4 : off + 4 ≤ l.length) :
    readLE32 l off < U32 := by
  have g : ∀ j, j < l.length → l.getD j 0 < 256 := by
    intro j hj
    have : l.getD j 0 ∈ l := by
      rw [List.getD_eq_getElem l 0 hj]
      exact l.getElem_mem hj
    exact h _ this
  have h0 := g off (by omega)
  have h1 := g (off + 1) (by omega)
  have h2 := g (off + 2) (by omega)
  have h3 := g (off + 3) (by omega)
  simp only [readLE32, U32]
  omega


theorem WavTotalHeaderSize_eq : WavTotalHeaderSize = 44 := rfl

theorem fmtChunkEnd_eq : WavRiffHeaderSize + WavFmtChunkSize = 36 := rfl

/-- Declared payload size of a single WAV buffer: the little-endian 32-bit
field at bytes 40..43 of the fixed header. -/
def declaredSize (b : List Nat) : Nat :=
  readLE32 b (WavTotalHeaderSize - DataChunkSizeField)

/-- Total declared payload size of a list of WAV buffers. -/
def totalPayload (bufs : List (List Nat)) : Nat :=
  (bufs.map declaredSize).sum

/-- The payload slice `extractAudioData` returns for one buffer. -/
def payloadOf (b : List Nat) : List Nat :=
  (b.drop WavTotalHeaderSize).take (declaredSize b)

/-- Concatenation of all input payloads, in input order. -/
def payloadConcat (bufs : List (List Nat)) : List Nat :=
  (bufs.map payloadOf).flatten

theorem extractAudioData_ok (b : List Nat) (i : Nat)
    (h1 : WavTotalHeaderSize ≤ b.length)
    (h2 : WavTotalHeaderSize + declaredSize b ≤ b.length)
    (h3 : WavTotalHeaderSize + declaredSize b < U32) :
    extractAudioData b i = .ok (payloadOf b, declaredSize b) := by
  have hmod : (WavTotalHeaderSize + readLE32 b
      (WavTotalHeaderSize - DataChunkSizeField)) % U32 =
      WavTotalHeaderSize + readLE32 b (WavTotalHeaderSize - DataChunkSizeField) :=
    Nat.mod_eq_of_lt (by simp only [declaredSize] at h3; exact h3)
  simp only [declaredSize] at h2
  simp only [extractAudioData, hmod]
  rw [if_neg (by omega), if_neg (by omega), if_neg (by omega)]
  simp only [payloadOf, declaredSize, Nat.add_sub_cancel_left]

theorem payloadOf_length (b : List Nat)
    (h2 : WavTotalHeaderSize + declaredSize b ≤ b.length) :
    (payloadOf b).length = declaredSize b := by
  simp only [payloadOf, List.length_take, List.length_drop]
  omega

theorem payloadConcat_length (bufs : List (List Nat))
    (h : ∀ b ∈ bufs, WavTotalHeaderSize + declaredSize b ≤ b.length) :
    (payloadConcat bufs).length = totalPayload bufs := by
  induction bufs with
  | nil => simp [payloadConcat, totalPayload]
  | cons b bs ih =>
    have hb := h b (by simp)
    have ihh := ih (fun x hx => h x (List.mem_cons_of_mem _ hx))
    simp only [payloadConcat, totalPayload, List.map_cons, List.flatten_cons,
      List.length_append, List.sum_cons] at *
    rw [payloadOf_length b hb, ihh]

theorem combineLoop_ok (bufs : List (List Nat)) :
    ∀ (i : Nat) (raw : List Nat) (total : Nat),
      (∀ b ∈ bufs, WavTotalHeaderSize ≤ b.length ∧
        WavTotalHeaderSize + declaredSize b ≤ b.length) →
      WavTotalHeaderSize + total + totalPayload bufs < U32 →
      combineLoop bufs i raw total =
        .ok (raw ++ payloadConcat bufs, total + totalPayload bufs) := by
  induction bufs with
  | nil => intro i raw total _ _; simp [combineLoop, payloadConcat, totalPayload]
  | cons b bs ih =>
    intro i raw total hall hfit
    have hb := hall b (by simp)
    have hsum : totalPayload (b :: bs) = declaredSize b + totalPayload bs := by
      simp [totalPayload]
    rw [hsum] at hfit
    simp only [combineLoop, extractAudioData_ok b i hb.1 hb.2 (by omega)]
    rw [Nat.mod_eq_of_lt (by omega)]
    rw [ih (i + 1) (raw ++ payloadOf b) (total + declaredSize b)
      (fun x hx => hall x (by simp [hx])) (by omega)]
    simp [payloadConcat, hsum, List.append_assoc]
    omega

theorem buildCombinedWav_length (fh raw : List Nat) (total : Nat) :
    (buildCombinedWav fh raw total).length =
      (WavTotalHeaderSize + total) % U32 := by
  simp [buildCombinedWav, writeBytes_length]

theorem readLE32_congr (l m : List Nat) (off off2 : Nat)
    (h : ∀ j, j < 4 → l.getD (off + j) 0 = m.getD (off2 + j) 0) :
    readLE32 l off = readLE32 m off2 := by
  have h0 := h 0 (by omega)
  have h1 := h 1 (by omega)
  have h2 := h 2 (by omega)
  have h3 := h 3 (by omega)
  simp only [Nat.add_zero] at h0
  simp only [readLE32, h0, h1, h2, h3]

theorem buildCombinedWav_spec (fh raw : List Nat) (total : Nat)
    (hfh : fh.length = 36) (hraw : raw.length = total)
    (hfit : WavTotalHeaderSize + total < U32) :
    (buildCombinedWav fh raw total).length = WavTotalHeaderSize + total ∧
    (∀ i, i < 36 → (i < 4 ∨ 8 ≤ i) →
      (buildCombinedWav fh raw total).getD i 0 = fh.getD i 0) ∧
    readLE32 (buildCombinedWav fh raw total) RiffChunkIDSize = 36 + total ∧
    ((buildCombinedWav fh raw total).getD 36 0 = 100 ∧
      (buildCombinedWav fh raw total).getD 37 0 = 97 ∧
      (buildCombinedWav fh raw total).getD 38 0 = 116 ∧
      (buildCombinedWav fh raw total).getD 39 0 = 97) ∧
    readLE32 (buildCombinedWav fh raw total)
      (WavTotalHeaderSize - DataChunkSizeField) = total ∧
    (buildCombinedWav fh raw total).drop WavTotalHeaderSize = raw := by
  have h44 : WavTotalHeaderSize = 44 := rfl
  have h40 : WavTotalHeaderSize - DataChunkSizeField = 40 := rfl
  have h4 : RiffChunkIDSize = 4 := rfl
  have hfit44 : 44 + total < U32 := by rw [h44] at hfit; exact hfit
  have hmod : (WavTotalHeaderSize + total) % U32 = WavTotalHeaderSize + total :=
    Nat.mod_eq_of_lt hfit
  have hriff : (WaveIDSize + WavFmtChunkSize + WavDataHeaderSize + total) % U32 =
      36 + total := by
    have he : WaveIDSize + WavFmtChunkSize + WavDataHeaderSize = 36 := rfl
    rw [he]
    exact Nat.mod_eq_of_lt (by omega)
  set rv : Nat := (WaveIDSize + WavFmtChunkSize + WavDataHeaderSize + total) % U32
    with hrv
  set w0 : List Nat := List.replicate ((WavTotalHeaderSize + total) % U32) 0 with hw0
  set w1 : List Nat := writeBytes w0 0 fh with hw1
  set w2 : List Nat := writeBytes w1 RiffChunkIDSize (le32 rv) with hw2
  set w3 : List Nat :=
    writeBytes w2 (WavRiffHeaderSize + WavFmtChunkSize) [100, 97, 116, 97] with hw3
  set w4 : List Nat :=
    writeBytes w3 (WavTotalHeaderSize - DataChunkSizeField) (le32 total) with hw4
  have hbuild : buildCombinedWav fh raw total = writeBytes w4 WavTotalHeaderSize raw := by
    simp only [buildCombinedWav, hw0, hw1, hw2, hw3, hw4, hrv]
  have hl0 : w0.length = 44 + total := by
    rw [hw0, List.length_replicate, hmod, h44]
  have hl1 : w1.length = 44 + total := by rw [hw1, writeBytes_length, hl0]
  have hl2 : w2.length = 44 + total := by rw [hw2, writeBytes_length, hl1]
  have hl3 : w3.length = 44 + total := by rw [hw3, writeBytes_length, hl2]
  have hl4 : w4.length = 44 + total := by rw [hw4, writeBytes_length, hl3]
  have hlen : (buildCombinedWav fh raw total).length = WavTotalHeaderSize + total := by
    rw [hbuild, writeBytes_length, hl4, h44]
  have hout_lt : ∀ i, i < 44 →
      (buildCombinedWav fh raw total).getD i 0 = w4.getD i 0 := by
    intro i hi
    rw [hbuild, writeBytes_getD_lt _ _ _ _ (by rw [h44]; omega)]
  have h4_3 : ∀ i, i < 40 → w4.getD i 0 = w3.getD i 0 := by
    intro i hi
    rw [hw4, writeBytes_getD_lt _ _ _ _ (by rw [h40]; omega)]
  have h3_2 : ∀ i, i < 36 → w3.getD i 0 = w2.getD i 0 := by
    intro i hi
    rw [hw3, writeBytes_getD_lt _ _ _ _ (by rw [fmtChunkEnd_eq]; omega)]
  have h2_1 : ∀ i, i < 4 ∨ 8 ≤ i → w2.getD i 0 = w1.getD i 0 := by
    intro i hi
    rcases hi with hi | hi
    · rw [hw2, writeBytes_getD_lt _ _ _ _ (by rw [h4]; omega)]
    · rw [hw2, writeBytes_getD_ge _ _ _ _ (by simp [h4, le32]; omega)]
  have h1_fh : ∀ i, i < 36 → w1.getD i 0 = fh.getD i 0 := by
    intro i hi
    rw [hw1, writeBytes_getD_in _ _ _ _ (Nat.zero_le _)
      (by rw [hfh]; omega) (by rw [hl0]; omega), Nat.sub_zero]
  have hfield4 : ∀ j, j < 4 →
      (buildCombinedWav fh raw total).getD (4 + j) 0 = (le32 rv).getD j 0 := by
    intro j hj
    rw [hout_lt (4 + j) (by omega), h4_3 (4 + j) (by omega), h3_2 (4 + j) (by omega),
      hw2, writeBytes_getD_in _ _ _ _ (by rw [h4]; omega)
        (by simp only [h4, le32, List.length_cons, List.length_nil]; omega)
        (by rw [hl1]; omega), h4]
    congr 1
    omega
  have hfield40 : ∀ j, j < 4 →
      (buildCombinedWav fh raw total).getD (40 + j) 0 = (le32 total).getD j 0 := by
    intro j hj
    rw [hout_lt (40 + j) (by omega), hw4,
      writeBytes_getD_in _ _ _ _ (by rw [h40]; omega)
        (by simp only [h40, le32, List.length_cons, List.length_nil]; omega)
        (by rw [hl3]; omega), h40]
    congr 1
    omega
  refine ⟨hlen, ?_, ?_, ?_, ?_, ?_⟩
  · intro i hi hcase
    rw [hout_lt i (by omega), h4_3 i (by omega), h3_2 i hi, h2_1 i hcase, h1_fh i hi]
  · have hcongr : readLE32 (buildCombinedWav fh raw total) RiffChunkIDSize =
        readLE32 (le32 rv) 0 := by
      refine readLE32_congr _ _ _ _ (fun j hj => ?_)
      rw [Nat.zero_add, h4]
      exact hfield4 j hj
    rw [hcongr, readLE32_le32 rv (by rw [hriff]; omega)]
    exact hriff
  · have e0 : (buildCombinedWav fh raw total).getD 36 0 = 100 := by
      have := hfield4 0 (by omega)
      rw [hout_lt 36 (by omega), h4_3 36 (by omega), hw3,
        writeBytes_getD_in _ _ _ _ (by rw [fmtChunkEnd_eq])
          (by rw [fmtChunkEnd_eq]; simp) (by rw [hl2]; omega), fmtChunkEnd_eq]
      norm_num
    have e1 : (buildCombinedWav fh raw total).getD 37 0 = 97 := by
      rw [hout_lt 37 (by omega), h4_3 37 (by omega), hw3,
        writeBytes_getD_in _ _ _ _ (by rw [fmtChunkEnd_eq]; omega)
          (by rw [fmtChunkEnd_eq]; simp) (by rw [hl2]; omega), fmtChunkEnd_eq]
      norm_num
    have e2 : (buildCombinedWav fh raw total).getD 38 0 = 116 := by
      rw [hout_lt 38 (by omega), h4_3 38 (by omega), hw3,
        writeBytes_getD_in _ _ _ _ (by rw [fmtChunkEnd_eq]; omega)
          (by rw [fmtChunkEnd_eq]; simp) (by rw [hl2]; omega), fmtChunkEnd_eq]
      norm_num
    have e3 : (buildCombinedWav fh raw total).getD 39 0 = 97 := by
      rw [hout_lt 39 (by omega), h4_3 39 (by omega), hw3,
        writeBytes_getD_in _ _ _ _ (by rw [fmtChunkEnd_eq]; omega)
          (by rw [fmtChunkEnd_eq]; simp) (by rw [hl2]; omega), fmtChunkEnd_eq]
      norm_num
    exact ⟨e0, e1, e2, e3⟩
  · have hcongr : readLE32 (buildCombinedWav fh raw total)
        (WavTotalHeaderSize - DataChunkSizeField) = readLE32 (le32 total) 0 := by
      refine readLE32_congr _ _ _ _ (fun j hj => ?_)
      rw [Nat.zero_add, h40]
      exact hfield40 j hj
    rw [hcongr, readLE32_le32 total (by omega)]
  · rw [hbuild, writeBytes_drop _ _ _ (by rw [hl4, hraw, h44])]

deriving instance DecidableEq for Except

theorem getD_take (l : List Nat) (n i : Nat) (h : i < n) :
    (l.take n).getD i 0 = l.getD i 0 := by
  induction l generalizing n i with
  | nil => simp
  | cons a t ih =>
    cases n with
    | zero => omega
    | succ m =>
      cases i with
      | zero => simp
      | succ j => simpa using ih m j (by omega)

/-- C1 (amended): for a non-empty list of buffers, each holding a full
44-byte header and at least its declared payload, with positive total
declared payload fitting in a `uint32`, `combineWavData` returns a buffer of
length `44 + totalPayload` whose header bytes outside the RIFF-size field
(bytes 0..3 and 8..35) equal the first buffer's, whose little-endian field
at offset 4 is `44 + totalPayload - 8`, whose field at offset 40 is
`totalPayload`, and whose bytes from offset 44 on are the payloads
concatenated in input order. -/
theorem combineWavData_spec (first : List Nat) (rest : List (List Nat))
    (hall : ∀ b ∈ first :: rest, WavTotalHeaderSize ≤ b.length ∧
      WavTotalHeaderSize + declaredSize b ≤ b.length)
    (hpos : 0 < totalPayload (first :: rest))
    (hfit : WavTotalHeaderSize + totalPayload (first :: rest) < U32) :
    ∃ out, combineWavData (first :: rest) = .ok out ∧
      out.length = WavTotalHeaderSize + totalPayload (first :: rest) ∧
      (∀ i, i < 36 → (i < 4 ∨ 8 ≤ i) → out.getD i 0 = first.getD i 0) ∧
      readLE32 out RiffChunkIDSize =
        WavTotalHeaderSize + totalPayload (first :: rest) - 8 ∧
      readLE32 out (WavTotalHeaderSize - DataChunkSizeField) =
        totalPayload (first :: rest) ∧
      out.drop WavTotalHeaderSize = payloadConcat (first :: rest) := by
  have h44 : WavTotalHeaderSize = 44 := rfl
  have hfirst := hall first (by simp)
  have hloop := combineLoop_ok (first :: rest) 0 [] 0 hall (by omega)
  have hcomb : combineWavData (first :: rest) =
      .ok (buildCombinedWav (first.take (WavRiffHeaderSize + WavFmtChunkSize))
        (payloadConcat (first :: rest)) (totalPayload (first :: rest))) := by
    simp only [combineWavData]
    rw [if_neg (by rw [fmtChunkEnd_eq]; rw [h44] at hfirst; omega), hloop]
    simp only [List.nil_append, Nat.zero_add]
    rw [if_neg (by omega)]
  have hfh : (first.take (WavRiffHeaderSize + WavFmtChunkSize)).length = 36 := by
    rw [List.length_take, fmtChunkEnd_eq]
    rw [h44] at hfirst
    omega
  have hraw : (payloadConcat (first :: rest)).length = totalPayload (first :: rest) :=
    payloadConcat_length _ (fun b hb => (hall b hb).2)
  obtain ⟨hlen, hhdr, hriff, _, hsize, hdrop⟩ :=
    buildCombinedWav_spec (first.take (WavRiffHeaderSize + WavFmtChunkSize))
      (payloadConcat (first :: rest)) (totalPayload (first :: rest)) hfh hraw hfit
  refine ⟨_, hcomb, hlen, ?_, ?_, hsize, hdrop⟩
  · intro i hi hcase
    rw [hhdr i hi hcase, fmtChunkEnd_eq, getD_take first 36 i hi]
  · rw [hriff, h44]
    omega

/-- Input of the C1 counterexample: a single valid 45-byte WAV buffer
(declared payload size 1, one payload byte 171, RIFF size field zero). -/
def c1CexBuf : List Nat := List.replicate 40 0 ++ [1, 0, 0, 0, 171]

/-- Output `combineWavData` produces for `[c1CexBuf]`. -/
def c1CexOut : List Nat :=
  [0, 0, 0, 0, 37, 0, 0, 0] ++ List.replicate 28 0 ++ [100, 97, 116, 97, 1, 0, 0, 0, 171]

/-- C1 counterexample: the claim demands that the first 36 output bytes
equal the first input buffer's first 36 bytes AND that the field at offset
4 equal `44 + totalPayload - 8`; on this input (whose own offset-4 field is
zero) `combineWavData` overwrites bytes 4..7, so the 36-byte prefixes
differ and the claimed conjunction is false. -/
theorem combineWavData_cex :
    combineWavData [c1CexBuf] = GoResult.ok c1CexOut ∧
    totalPayload [c1CexBuf] = 1 ∧
    c1CexOut.take 36 ≠ c1CexBuf.take 36 := by decide

/-- Witness for `combineWavData_spec` at a concrete two-buffer input with
payload sizes 1 and 2. -/
theorem combineWavData_spec_witness :
    (∃ out, combineWavData
        [List.replicate 40 0 ++ [1, 0, 0, 0, 5],
         List.replicate 40 0 ++ [2, 0, 0, 0, 6, 7]] = .ok out ∧
      out.length = WavTotalHeaderSize + 3 ∧
      out.drop WavTotalHeaderSize = [5, 6, 7]) := by
  obtain ⟨out, h1, h2, _, _, _, h6⟩ :=
    combineWavData_spec (List.replicate 40 0 ++ [1, 0, 0, 0, 5])
      [List.replicate 40 0 ++ [2, 0, 0, 0, 6, 7]]
      (by decide) (by decide) (by decide)
  exact ⟨out, h1, by simpa using h2, by rw [h6]; decide⟩

/-- C8 (amended): extraction succeeds exactly when the buffer holds the
44-byte header, the `uint32` sum `44 + declared` does not wrap, and the
declared bytes are present (extra trailing bytes are accepted); it panics
exactly when the sum wraps (declared at least `2^32 - 44`) yet the wrapped
end index is within the buffer; in the remaining cases it fails with the
format error. On success the returned payload is exactly the declared
number of bytes. -/
theorem extractAudioData_spec (wavBytes : List Nat) (index : Nat)
    (hbytes : ∀ b ∈ wavBytes, b < 256) :
    ((∃ p n, extractAudioData wavBytes index = .ok (p, n)) ↔
      WavTotalHeaderSize ≤ wavBytes.length ∧
        WavTotalHeaderSize + declaredSize wavBytes < U32 ∧
        WavTotalHeaderSize + declaredSize wavBytes ≤ wavBytes.length) ∧
    (extractAudioData wavBytes index = .panic ↔
      WavTotalHeaderSize ≤ wavBytes.length ∧
        U32 ≤ WavTotalHeaderSize + declaredSize wavBytes ∧
        (WavTotalHeaderSize + declaredSize wavBytes) % U32 ≤ wavBytes.length) ∧
    (∀ p n, extractAudioData wavBytes index = .ok (p, n) →
      n = declaredSize wavBytes ∧ p = payloadOf wavBytes ∧ p.length = n) := by
  have hU32 : U32 = 4294967296 := rfl
  by_cases h1 : wavBytes.length < WavTotalHeaderSize
  · obtain ⟨m, hres⟩ : ∃ m, extractAudioData wavBytes index = .error m :=
      ⟨_, by simp only [extractAudioData, if_pos h1]; rfl⟩
    rw [hres]
    refine ⟨⟨?_, ?_⟩, ⟨?_, ?_⟩, ?_⟩
    · rintro ⟨p, n, hp⟩
      exact GoResult.noConfusion hp
    · intro h
      exact absurd h.1 (by omega)
    · intro hp
      exact GoResult.noConfusion hp
    · intro h
      exact absurd h.1 (by omega)
    · intro p n hp
      exact GoResult.noConfusion hp
  · have hd : readLE32 wavBytes (WavTotalHeaderSize - DataChunkSizeField) < U32 :=
      readLE32_lt wavBytes _ hbytes
        (by have hoff : WavTotalHeaderSize - DataChunkSizeField = 40 := rfl
            have h44v : WavTotalHeaderSize = 44 := rfl
            omega)
    have hdecl : declaredSize wavBytes =
        readLE32 wavBytes (WavTotalHeaderSize - DataChunkSizeField) := rfl
    by_cases h2 : wavBytes.length <
        (WavTotalHeaderSize + readLE32 wavBytes
          (WavTotalHeaderSize - DataChunkSizeField)) % U32
    · obtain ⟨m, hres⟩ : ∃ m, extractAudioData wavBytes index = .error m :=
        ⟨_, by simp only [extractAudioData, if_neg h1, if_pos h2]; rfl⟩
      rw [hres]
      refine ⟨⟨?_, ?_⟩, ⟨?_, ?_⟩, ?_⟩
      · rintro ⟨p, n, hp⟩
        exact GoResult.noConfusion hp
      · intro h
        rw [hdecl] at h
        rw [hU32] at h h2
        exfalso
        omega
      · intro hp
        exact GoResult.noConfusion hp
      · intro h
        rw [hdecl] at h
        rw [hU32] at h h2
        exfalso
        omega
      · intro p n hp
        exact GoResult.noConfusion hp
    · by_cases h3 : (WavTotalHeaderSize + readLE32 wavBytes
          (WavTotalHeaderSize - DataChunkSizeField)) % U32 < WavTotalHeaderSize
      · have hres : extractAudioData wavBytes index = .panic := by
          simp only [extractAudioData, if_neg h1, if_neg h2, if_pos h3]
        rw [hres]
        refine ⟨⟨?_, ?_⟩, ⟨?_, ?_⟩, ?_⟩
        · rintro ⟨p, n, hp⟩
          exact GoResult.noConfusion hp
        · intro h
          rw [hdecl] at h
          rw [hU32] at h h3
          exfalso
          omega
        · intro _
          rw [hdecl]
          rw [hU32] at h2 h3 ⊢
          omega
        · intro _
          rfl
        · intro p n hp
          exact GoResult.noConfusion hp
      · have hnw : WavTotalHeaderSize + readLE32 wavBytes
            (WavTotalHeaderSize - DataChunkSizeField) < U32 := by
          rw [hU32] at h3 hd ⊢
          omega
        have hmod : (WavTotalHeaderSize + readLE32 wavBytes
            (WavTotalHeaderSize - DataChunkSizeField)) % U32 =
            WavTotalHeaderSize + readLE32 wavBytes
              (WavTotalHeaderSize - DataChunkSizeField) :=
          Nat.mod_eq_of_lt hnw
        have hres : extractAudioData wavBytes index =
            .ok ((wavBytes.drop WavTotalHeaderSize).take
              (readLE32 wavBytes (WavTotalHeaderSize - DataChunkSizeField)),
              readLE32 wavBytes (WavTotalHeaderSize - DataChunkSizeField)) := by
          simp only [extractAudioData, if_neg h1, if_neg h2, if_neg h3]
          rw [hmod, Nat.add_sub_cancel_left]
        have hle : WavTotalHeaderSize + declaredSize wavBytes ≤ wavBytes.length := by
          rw [hdecl]
          rw [hU32] at h2 hmod
          omega
        rw [hres]
        refine ⟨⟨?_, ?_⟩, ⟨?_, ?_⟩, ?_⟩
        · intro _
          refine ⟨by omega, ?_, hle⟩
          rw [hdecl]
          exact hnw
        · intro _
          exact ⟨_, _, rfl⟩
        · intro hp
          exact GoResult.noConfusion hp
        · intro h
          exfalso
          rw [hdecl] at h
          have := h.2.1
          omega
        · intro p n hp
          rw [GoResult.ok.injEq, Prod.mk.injEq] at hp
          obtain ⟨hp1, hp2⟩ := hp
          refine ⟨?_, ?_, ?_⟩
          · rw [hdecl]
            exact hp2.symm
          · rw [← hp1]
            simp only [payloadOf, declaredSize]
          · rw [← hp1, ← hp2]
            simpa only [payloadOf, declaredSize] using payloadOf_length wavBytes hle

/-- Input of the C8 counterexample: 44 zero header bytes (declared payload
size 0) followed by one actual payload byte. -/
def c8CexBuf : List Nat := List.replicate 44 0 ++ [7]

/-- C8 counterexample: the declared payload size (0) differs from the
number of payload bytes present (1), yet extraction succeeds instead of
failing with a format error, refuting the claim that extraction fails
whenever declared and actual payload lengths differ. -/
theorem extractAudioData_cex :
    extractAudioData c8CexBuf 0 = GoResult.ok ([], 0) ∧
    declaredSize c8CexBuf = 0 ∧
    c8CexBuf.length - WavTotalHeaderSize = 1 := by decide

/-- Witness for `extractAudioData_spec` at a concrete buffer with declared
size 1 and payload byte 9. -/
theorem extractAudioData_spec_witness :
    extractAudioData (List.replicate 40 0 ++ [1, 0, 0, 0, 9]) 0 =
      GoResult.ok ([9], 1) ∧
    (1 = declaredSize (List.replicate 40 0 ++ [1, 0, 0, 0, 9]) ∧
      [9] = payloadOf (List.replicate 40 0 ++ [1, 0, 0, 0, 9]) ∧
      ([9] : List Nat).length = 1) :=
  ⟨by decide,
    (extractAudioData_spec (List.replicate 40 0 ++ [1, 0, 0, 0, 9]) 0
      (by decide)).2.2 [9] 1 (by decide)⟩


/-! ## StyleResolver (src/internal/voicevox/engine.go `determineStyleID`,
and the cached variant of the historical engine file) -/

/-- `SpeakerData`: the voice table. Go maps become association lists. -/
structure SpeakerData where
  StyleIDMap : List (String × Int)
  DefaultStyleMap : List (String × String)

/-- Scan up to the first `']'`, returning the content before it and the
remainder after it. -/
def takeUntilRB : List Char → Option (List Char × List Char)
  | [] => none
  | c :: cs =>
    if c = ']' then some ([], cs)
    else
      match takeUntilRB cs with
      | none => none
      | some (as, bs) => some (c :: as, bs)

/-- The regex `reSpeaker` (a leading lazily-matched bracketed group with a
non-empty body, whose first character may itself be `]`). Returns the
matched group and the rest of the string. -/
def findLeadingBracket : List Char → Option (List Char × List Char)
  | '[' :: c :: rest =>
    match takeUntilRB rest with
    | some (as, bs) => some ('[' :: c :: as ++ [']'], bs)
    | none => none
  | _ => none

/-- The base speaker tag the orchestrator precomputes with `reSpeaker`
(empty when the regex does not match). -/
def baseTagOf (tag : String) : String :=
  match findLeadingBracket tag.data with
  | some (g, _) => String.mk g
  | none => ""

/-- The two error construction sites of `determineStyleID`. -/
inductive StyleErr where
  | parseFail (tag : String) (index : Nat)
  | notFound (tag : String) (index : Nat)
deriving DecidableEq

/-- `determineStyleID` (engine.go): exact lookup of the full tag, else
fallback through the leading speaker marker's default style tag, else an
error naming the tag and segment index. -/
def determineStyleID (speakerData : SpeakerData) (tag : String) (index : Nat) :
    Except StyleErr Int :=
  match speakerData.StyleIDMap.lookup tag with
  | some styleID => .ok styleID
  | none =>
    match findLeadingBracket tag.data with
    | none => .error (.parseFail tag index)
    | some (baseSpeakerTag, _) =>
      match speakerData.DefaultStyleMap.lookup (String.mk baseSpeakerTag) with
      | some fallbackKey => .ok ((speakerData.StyleIDMap.lookup fallbackKey).getD 0)
      | none => .error (.notFound tag index)

/-- The cached `determineStyleID` of the historical engine variant: check the
run-scoped style cache first, cache fresh resolutions under the original
tag; `baseSpeakerTag` is the precomputed leading marker (empty on regex
failure). Returns the result and the updated cache. -/
def determineStyleIDCached (cache : List (String × Int))
    (speakerData : SpeakerData) (tag : String) (baseSpeakerTag : String)
    (index : Nat) : Except StyleErr Int × List (String × Int) :=
  match cache.lookup tag with
  | some id => (.ok id, cache)
  | none =>
    match speakerData.StyleIDMap.lookup tag with
    | some styleID => (.ok styleID, (tag, styleID) :: cache)
    | none =>
      if baseSpeakerTag = "" then (.error (.parseFail tag index), cache)
      else
        match speakerData.DefaultStyleMap.lookup baseSpeakerTag with
        | some fallbackKey =>
          let styleID := (speakerData.StyleIDMap.lookup fallbackKey).getD 0
          (.ok styleID, (tag, styleID) :: cache)
        | none => (.error (.notFound tag index), cache)

/-- C7: on a cache miss, resolution returns the exact mapped id when the
full tag is in the style table; when it is absent but the leading speaker
marker has a default tag, it returns the default tag's id, caching it under
the original tag; and it errors when neither exists (e.g. the style table
`[A][Normal] ↦ 5` with default `[A] ↦ [A][Normal]` resolves `[A][Happy]`
to 5 and fails on `[B][Normal]`, as the witness instantiates). -/
theorem determineStyleID_spec (cache : List (String × Int)) (sd : SpeakerData)
    (tag : String) (index : Nat) (hmiss : cache.lookup tag = none) :
    (∀ id, sd.StyleIDMap.lookup tag = some id →
      determineStyleIDCached cache sd tag (baseTagOf tag) index =
        (.ok id, (tag, id) :: cache)) ∧
    (∀ fb fid, sd.StyleIDMap.lookup tag = none → baseTagOf tag ≠ "" →
      sd.DefaultStyleMap.lookup (baseTagOf tag) = some fb →
      sd.StyleIDMap.lookup fb = some fid →
      determineStyleIDCached cache sd tag (baseTagOf tag) index =
        (.ok fid, (tag, fid) :: cache)) ∧
    (sd.StyleIDMap.lookup tag = none → baseTagOf tag ≠ "" →
      sd.DefaultStyleMap.lookup (baseTagOf tag) = none →
      determineStyleIDCached cache sd tag (baseTagOf tag) index =
        (.error (.notFound tag index), cache)) := by
  refine ⟨?_, ?_, ?_⟩
  · intro id hid
    simp [determineStyleIDCached, hmiss, hid]
  · intro fb fid hnone hbase hfb hfid
    simp [determineStyleIDCached, hmiss, hnone, hbase, hfb, hfid]
  · intro hnone hbase hdef
    simp [determineStyleIDCached, hmiss, hnone, hbase, hdef]

/-- The voice table of the C7 example. -/
def c7SD : SpeakerData :=
  ⟨[("[A][Normal]", 5)], [("[A]", "[A][Normal]")]⟩

/-- Witness for `determineStyleID_spec`: with the claim's example table,
resolving the absent tag `"[A][Happy]"` falls back to 5 and caches it under
the original tag, and resolving `"[B][Normal]"` (speaker absent) errors. -/
theorem determineStyleID_spec_witness :
    determineStyleIDCached [] c7SD "[A][Happy]" (baseTagOf "[A][Happy]") 0 =
      (.ok 5, [("[A][Happy]", 5)]) ∧
    determineStyleIDCached [] c7SD "[B][Normal]" (baseTagOf "[B][Normal]") 0 =
      (.error (.notFound "[B][Normal]" 0), []) :=
  ⟨(determineStyleID_spec [] c7SD "[A][Happy]" 0 (by decide)).2.1 "[A][Normal]" 5
      (by decide) (by decide) (by decide) (by decide),
    (determineStyleID_spec [] c7SD "[B][Normal]" 0 (by decide)).2.2
      (by decide) (by decide) (by decide)⟩

/-! ## ScriptSegmenter (src/internal/voicevox/script_parser.go)

Strings are lists of runes. The two loops of the Go parser (splitting an
over-long addition across segments) are embedded as structurally recursive
functions on a fuel argument that strictly exceeds the number of loop
iterations (`2 * length + 2`), so every definition evaluates by `decide`. -/

/-- Go's `unicode.IsSpace` (the Unicode White_Space set), used by
`bytes.TrimSpace`. -/
def isSpaceGo (c : Char) : Bool :=
  let v := c.toNat
  v = 9 || v = 10 || v = 11 || v = 12 || v = 13 || v = 32 || v = 133 ||
    v = 160 || v = 5760 || (8192 ≤ v && v ≤ 8202) || v = 8232 || v = 8233 ||
    v = 8239 || v = 8287 || v = 12288

/-- The regexp character class `\s` of Go's RE2 (Perl space). -/
def isPerlSpace (c : Char) : Bool :=
  let v := c.toNat
  v = 9 || v = 10 || v = 12 || v = 13 || v = 32

/-- `bytes.TrimSpace`: drop White_Space runes from both ends. -/
def trimSpace (s : List Char) : List Char :=
  ((s.dropWhile isSpaceGo).reverse.dropWhile isSpaceGo).reverse

/-- The alternatives of `emotionTagsPattern`, in source order. -/
def emotionTags : List (List Char) :=
  ["解説".data, "疑問".data, "驚き".data, "理解".data, "落ち着き".data,
   "納得".data, "断定".data, "呼びかけ".data, "まとめ".data, "通常".data,
   "喜び".data, "怒り".data, "ノーマル".data, "あまあま".data,
   "ツンツン".data, "セクシー".data, "ヒソヒソ".data, "ささやき".data]

/-- `reEmotionParse.ReplaceAllString(text, "")`: scan left to right,
deleting every occurrence of a bracketed recognized emotion word. Fueled by
the input length (one fuel per consumed character suffices). -/
def stripEmotionTagsF : Nat → List Char → List Char
  | _, [] => []
  | 0, s => s
  | fuel + 1, c :: cs =>
    match emotionTags.find? (fun w => ('[' :: (w ++ [']'])).isPrefixOf (c :: cs)) with
    | some w => stripEmotionTagsF fuel ((c :: cs).drop (w.length + 2))
    | none => c :: stripEmotionTagsF fuel cs

def stripEmotionTags (s : List Char) : List Char :=
  stripEmotionTagsF s.length s

def maxSegmentCharLength : Nat := 250

/-- The hardcoded default tag of script_parser.go. -/
def fallbackDefaultTag : List Char := "[四国めたん][ノーマル]".data

/-- A parsed segment: combined speaker/style tag and cleaned text. -/
structure scriptSegment where
  SpeakerTag : List Char
  Text : List Char
deriving DecidableEq

/-- `safeSplit` (script_parser.go): if the whole addition (plus one
separator) fits in the budget, take it all; otherwise take exactly the
remaining capacity in runes (or nothing when the open segment already
exhausts the budget). -/
def safeSplit (currentText text : List Char) : List Char × List Char :=
  let totalChars := currentText.length + 1 + text.length
  if totalChars ≤ maxSegmentCharLength then (text, [])
  else
    let remainingCapacity : Int :=
      (maxSegmentCharLength : Int) - (currentText.length + 1)
    if remainingCapacity ≤ 0 then ([], text)
    else
      let charsToTake := min remainingCapacity.toNat text.length
      (text.take charsToTake, text.drop charsToTake)

/-- `flushSegment`: emit `text` under `tag` after stripping emotion tags and
trimming; empty tag, empty text, or text that cleans to empty emits
nothing. -/
def flushSegment (segments : List scriptSegment) (tag text : List Char) :
    List scriptSegment :=
  if text = [] ∨ tag = [] then segments
  else
    let finalText := trimSpace (stripEmotionTags text)
    if finalText ≠ [] then segments ++ [⟨tag, finalText⟩] else segments

/-- `flushAndReset`: flush the open segment when both tag and text are
non-empty (the caller resets the text buffer). -/
def flushAndReset (segments : List scriptSegment) (currentTag currentText : List Char) :
    List scriptSegment :=
  if currentText ≠ [] ∧ currentTag ≠ [] then flushSegment segments currentTag currentText
  else segments

/-- The `for textToAppend != ""` accumulation loop shared by the tagged and
untagged branches: append what fits, and on overflow flush the filled
segment and continue with the remainder under the same tag. -/
def appendAndSplitF : Nat → List Char → List scriptSegment → List Char →
    List Char → List scriptSegment × List Char
  | _, _, segments, currentText, [] => (segments, currentText)
  | 0, _, segments, currentText, _ => (segments, currentText)
  | fuel + 1, tag, segments, currentText, c :: cs =>
    let (partToAdd, remainder) := safeSplit currentText (c :: cs)
    let currentText2 :=
      if partToAdd = [] then currentText
      else if currentText = [] then partToAdd
      else currentText ++ ' ' :: partToAdd
    if remainder = [] then (segments, currentText2)
    else appendAndSplitF fuel tag (flushAndReset segments tag currentText2) [] remainder

def appendAndSplit (tag : List Char) (segments : List scriptSegment)
    (currentText text : List Char) : List scriptSegment × List Char :=
  appendAndSplitF (2 * text.length + 2) tag segments currentText text

/-- After a candidate close of the first group: `\s*` then the second
bracketed group (lazy, so closed at the first `]`), then `\s*` and the rest
of the line as group 3. -/
def matchTailAfterG1 (rest : List Char) : Option (List Char × List Char) :=
  match findLeadingBracket (rest.dropWhile isPerlSpace) with
  | some (g2, r2) => some (g2, r2.dropWhile isPerlSpace)
  | none => none

/-- Scan for the close of the lazily matched first group: at each `]`
(after at least one body character) try to match the tail, extending the
group past the `]` on failure — the backtracking of `(\ [.+?\ ])` written
out. `acc` holds the reversed body scanned so far. -/
def scanG1 (acc : List Char) : List Char → Option (List Char × List Char × List Char)
  | [] => none
  | c :: rest =>
    if c = ']' ∧ acc ≠ [] then
      match matchTailAfterG1 rest with
      | some (g2, g3) => some ('[' :: acc.reverse ++ [']'], g2, g3)
      | none => scanG1 (c :: acc) rest
    else scanG1 (c :: acc) rest

/-- `reScriptParse.FindStringSubmatch`: groups 1 and 2 are the two leading
bracketed markers, group 3 the remaining text. -/
def findTwoTags (line : List Char) : Option (List Char × List Char × List Char) :=
  match line with
  | c :: rest => if c = '[' then scanG1 [] rest else none
  | [] => none

/-- The mutable local state of `parseScript`'s line loop. -/
structure ParseState where
  segments : List scriptSegment
  currentTag : List Char
  currentText : List Char
  textBuffer : List Char
deriving DecidableEq

/-- One iteration of the line loop of `parseScript`. -/
def processLine (st : ParseState) (lineRaw : List Char) : ParseState :=
  let line := trimSpace lineRaw
  if line = [] then st
  else
    let textToProcess :=
      if st.textBuffer ≠ [] then st.textBuffer ++ ' ' :: line else line
    match findTwoTags textToProcess with
    | some (speakerTag, vvStyleTag, textPart) =>
      let newCombinedTag := speakerTag ++ vvStyleTag
      let (segments1, currentTag1, currentText1) :=
        if st.currentTag ≠ [] ∧ newCombinedTag ≠ st.currentTag then
          (flushAndReset st.segments st.currentTag st.currentText,
            ([] : List Char), ([] : List Char))
        else (st.segments, st.currentTag, st.currentText)
      if textPart = [] then
        { segments := segments1, currentTag := currentTag1,
          currentText := currentText1, textBuffer := [] }
      else
        let (segments2, currentText2) :=
          appendAndSplit newCombinedTag segments1 currentText1 textPart
        { segments := segments2, currentTag := newCombinedTag,
          currentText := currentText2, textBuffer := [] }
    | none =>
      if st.currentTag ≠ [] then
        let (segments2, currentText2) :=
          appendAndSplit st.currentTag st.segments st.currentText textToProcess
        { segments := segments2, currentTag := st.currentTag,
          currentText := currentText2, textBuffer := [] }
      else
        { segments := st.segments, currentTag := st.currentTag,
          currentText := st.currentText, textBuffer := textToProcess }

/-- `bytes.Split(script, "\n")` (on rune lists; the separator is a single
rune, so byte and rune splitting agree). -/
def splitLines (script : List Char) : List (List Char) :=
  script.splitOn '\n'

def initParseState : ParseState := ⟨[], [], [], []⟩

/-- The state after the line loop of `parseScript`. -/
def parseLoopState (script : List Char) : ParseState :=
  (splitLines script).foldl processLine initParseState

/-- The segments emitted by the line loop plus the final flush of the open
segment — everything except the leftover-text handling. -/
def mainSegments (script : List Char) : List scriptSegment :=
  flushAndReset (parseLoopState script).segments (parseLoopState script).currentTag
    (parseLoopState script).currentText

/-- End-of-input handling of `parseScript`: flush the open segment, then
attach leftover untagged text to the last emitted tag, or to the fallback
tag, or drop it. -/
def finishParsing (fallbackTag : List Char) (st : ParseState) : List scriptSegment :=
  let segments := flushAndReset st.segments st.currentTag st.currentText
  if st.textBuffer ≠ [] then
    match segments.getLast? with
    | some lastSeg => flushSegment segments lastSeg.SpeakerTag st.textBuffer
    | none =>
      if fallbackTag ≠ [] then flushSegment segments fallbackTag st.textBuffer
      else segments
  else segments

/-- `parseScript` of the parameterized historical variant
(src/unnamed/part_008): the fallback tag is an argument. -/
def parseScriptWith (script fallbackTag : List Char) : List scriptSegment :=
  finishParsing fallbackTag (parseLoopState script)

/-- `parseScript` (script_parser.go): the fallback tag is the hardcoded
package default. -/
def parseScript (script : List Char) : List scriptSegment :=
  parseScriptWith script fallbackDefaultTag

/-! ### Splitting at the length budget (C6) -/

/-- C6 (amended): whenever the addition does not fit and capacity remains,
`safeSplit` splits at the exact character boundary — it takes exactly
`min(budget, length)` runes and loses nothing — with no preference for
sentence-terminating punctuation. -/
theorem safeSplit_spec (currentText text : List Char)
    (hover : maxSegmentCharLength < currentText.length + 1 + text.length)
    (hcap : currentText.length + 1 < maxSegmentCharLength) :
    (safeSplit currentText text).1 =
      text.take (min (maxSegmentCharLength - (currentText.length + 1)) text.length) ∧
    (safeSplit currentText text).2 =
      text.drop (min (maxSegmentCharLength - (currentText.length + 1)) text.length) ∧
    (safeSplit currentText text).1 ++ (safeSplit currentText text).2 = text := by
  have h1 : ¬ (currentText.length + 1 + text.length ≤ maxSegmentCharLength) := by
    omega
  have h2 : ¬ ((maxSegmentCharLength : Int) - (currentText.length + 1) ≤ 0) := by
    omega
  have h3 : ((maxSegmentCharLength : Int) - ((currentText.length : Int) + 1)).toNat =
      maxSegmentCharLength - (currentText.length + 1) := by
    omega
  refine ⟨?_, ?_, ?_⟩ <;>
    simp only [safeSplit, if_neg h1, if_neg h2, h3, List.take_append_drop]

/-- The punctuation-bearing text of the C6 counterexample. -/
def c6Text : List Char := 'a' :: '。' :: List.replicate 300 'b'

/-- C6 counterexample: the addition has a sentence-terminating `。` at rune
index 1, well inside the budget, yet `safeSplit` takes 249 runes — it never
splits at the punctuation mark as the claim requires (a punctuation split
would take exactly the two runes `a。`). -/
theorem safeSplit_cex :
    (safeSplit [] c6Text).1.length = 249 ∧
    (safeSplit [] c6Text).1 ≠ ['a', '。'] ∧
    '。' ∈ (safeSplit [] c6Text).1 := by decide

/-- Witness for `safeSplit_spec` at an overlong concrete addition. -/
theorem safeSplit_spec_witness :
    (safeSplit [] (List.replicate 251 'x')).1 = List.replicate 249 'x' ∧
    (safeSplit [] (List.replicate 251 'x')).2 = List.replicate 2 'x' := by
  obtain ⟨h1, h2, _⟩ :=
    safeSplit_spec [] (List.replicate 251 'x') (by decide) (by decide)
  exact ⟨by rw [h1]; decide, by rw [h2]; decide⟩

/-! ### Length and shape lemmas for segment emission -/

theorem stripEmotionTagsF_length :
    ∀ (fuel : Nat) (s : List Char), (stripEmotionTagsF fuel s).length ≤ s.length := by
  intro fuel
  induction fuel with
  | zero => intro s; cases s <;> simp [stripEmotionTagsF]
  | succ f ih =>
    intro s
    cases s with
    | nil => simp [stripEmotionTagsF]
    | cons c cs =>
      simp only [stripEmotionTagsF]
      cases hfind : emotionTags.find?
          (fun w => ('[' :: (w ++ [']'])).isPrefixOf (c :: cs)) with
      | none => simpa using ih cs
      | some w =>
        calc (stripEmotionTagsF f ((c :: cs).drop (w.length + 2))).length
            ≤ ((c :: cs).drop (w.length + 2)).length := ih _
          _ ≤ (c :: cs).length := by simp [List.length_drop]; omega

theorem trimSpace_length (s : List Char) : (trimSpace s).length ≤ s.length := by
  simp only [trimSpace, List.length_reverse]
  calc ((s.dropWhile isSpaceGo).reverse.dropWhile isSpaceGo).length
      ≤ (s.dropWhile isSpaceGo).reverse.length :=
        (List.dropWhile_suffix _).length_le
    _ = (s.dropWhile isSpaceGo).length := by simp
    _ ≤ s.length := (List.dropWhile_suffix _).length_le

/-- The cleanup applied before emission never lengthens the text. -/
theorem cleanText_length (t : List Char) :
    (trimSpace (stripEmotionTags t)).length ≤ t.length :=
  le_trans (trimSpace_length _) (stripEmotionTagsF_length _ _)

/-- `flushSegment` appends at most one segment, whose tag is the given tag
and whose text is the cleaned input text. -/
theorem flushSegment_shape (segs : List scriptSegment) (tag text : List Char) :
    ∃ extra, flushSegment segs tag text = segs ++ extra ∧ extra.length ≤ 1 ∧
      ∀ s ∈ extra, s.SpeakerTag = tag ∧ s.Text = trimSpace (stripEmotionTags text) := by
  simp only [flushSegment]
  split
  · exact ⟨[], by simp⟩
  · split
    · refine ⟨[⟨tag, trimSpace (stripEmotionTags text)⟩], rfl, by simp, ?_⟩
      intro s hs
      simp at hs
      simp [hs]
    · exact ⟨[], by simp⟩

/-- `flushAndReset` likewise appends at most one segment, tagged with the
current tag. -/
theorem flushAndReset_shape (segs : List scriptSegment) (tag cur : List Char) :
    ∃ extra, flushAndReset segs tag cur = segs ++ extra ∧ extra.length ≤ 1 ∧
      ∀ s ∈ extra, s.SpeakerTag = tag ∧ s.Text = trimSpace (stripEmotionTags cur) := by
  simp only [flushAndReset]
  split
  · exact flushSegment_shape segs tag cur
  · exact ⟨[], by simp⟩

/-- Segments flushed from a text within the budget stay within the budget. -/
theorem flushSegment_bound (segs : List scriptSegment) (tag text : List Char)
    (hsegs : ∀ s ∈ segs, s.Text.length ≤ maxSegmentCharLength)
    (htext : text.length ≤ maxSegmentCharLength) :
    ∀ s ∈ flushSegment segs tag text, s.Text.length ≤ maxSegmentCharLength := by
  obtain ⟨extra, heq, _, hall⟩ := flushSegment_shape segs tag text
  rw [heq]
  intro s hs
  rcases List.mem_append.1 hs with h | h
  · exact hsegs s h
  · rw [(hall s h).2]
    exact le_trans (cleanText_length text) htext

theorem flushAndReset_bound (segs : List scriptSegment) (tag cur : List Char)
    (hsegs : ∀ s ∈ segs, s.Text.length ≤ maxSegmentCharLength)
    (hcur : cur.length ≤ maxSegmentCharLength) :
    ∀ s ∈ flushAndReset segs tag cur, s.Text.length ≤ maxSegmentCharLength := by
  simp only [flushAndReset]
  split
  · exact flushSegment_bound segs tag cur hsegs hcur
  · exact hsegs

/-- The text accumulated after one `safeSplit` step stays within the
budget. -/
theorem safeSplit_newcur_bound (cur text : List Char)
    (hcur : cur.length ≤ maxSegmentCharLength) :
    (if (safeSplit cur text).1 = [] then cur
     else if cur = [] then (safeSplit cur text).1
     else cur ++ ' ' :: (safeSplit cur text).1).length ≤ maxSegmentCharLength := by
  simp only [maxSegmentCharLength] at *
  by_cases h1 : cur.length + 1 + text.length ≤ 250
  · simp only [safeSplit, maxSegmentCharLength, if_pos h1]
    split
    · exact hcur
    · split
      · rename_i hc
        subst hc
        simp only [List.length_nil] at h1
        omega
      · simp only [List.length_append, List.length_cons]
        omega
  · by_cases h2 : ((250 : Nat) : Int) - ((cur.length : Int) + 1) ≤ 0
    · have hs : safeSplit cur text = ([], text) := by
        simp only [safeSplit, maxSegmentCharLength, if_neg h1, if_pos h2]
      simp [hs, hcur]
    · have h3 : (((250 : Nat) : Int) - ((cur.length : Int) + 1)).toNat =
          250 - (cur.length + 1) := by omega
      have hs : safeSplit cur text =
          (text.take (min (250 - (cur.length + 1)) text.length),
           text.drop (min (250 - (cur.length + 1)) text.length)) := by
        simp only [safeSplit, maxSegmentCharLength, if_neg h1, if_neg h2, h3]
      rw [hs]
      split
      · exact hcur
      · split
        · simp only [List.length_take]
          omega
        · simp only [List.length_append, List.length_cons, List.length_take]
          omega

/-- The accumulation loop preserves the length bound on emitted segments
and on the open segment text. -/
theorem appendAndSplitF_bound :
    ∀ (fuel : Nat) (tag : List Char) (segs : List scriptSegment)
      (cur text : List Char),
      (∀ s ∈ segs, s.Text.length ≤ maxSegmentCharLength) →
      cur.length ≤ maxSegmentCharLength →
      (∀ s ∈ (appendAndSplitF fuel tag segs cur text).1,
        s.Text.length ≤ maxSegmentCharLength) ∧
      (appendAndSplitF fuel tag segs cur text).2.length ≤ maxSegmentCharLength := by
  intro fuel
  induction fuel with
  | zero =>
    intro tag segs cur text hs hc
    cases text <;> exact ⟨hs, hc⟩
  | succ f ih =>
    intro tag segs cur text hs hc
    cases text with
    | nil => exact ⟨hs, hc⟩
    | cons c cs =>
      rcases hsp : safeSplit cur (c :: cs) with ⟨p, r⟩
      have hnew : (if p = [] then cur else if cur = [] then p
          else cur ++ ' ' :: p).length ≤ maxSegmentCharLength := by
        have h := safeSplit_newcur_bound cur (c :: cs) hc
        rw [hsp] at h
        simpa using h
      simp only [appendAndSplitF, hsp]
      by_cases hr : r = []
      · simp only [if_pos hr]
        exact ⟨hs, hnew⟩
      · simp only [if_neg hr]
        exact ih tag _ [] r (flushAndReset_bound _ tag _ hs hnew) (by decide)

theorem appendAndSplit_bound (tag : List Char) (segs : List scriptSegment)
    (cur text : List Char)
    (hs : ∀ s ∈ segs, s.Text.length ≤ maxSegmentCharLength)
    (hc : cur.length ≤ maxSegmentCharLength) :
    (∀ s ∈ (appendAndSplit tag segs cur text).1,
      s.Text.length ≤ maxSegmentCharLength) ∧
    (appendAndSplit tag segs cur text).2.length ≤ maxSegmentCharLength :=
  appendAndSplitF_bound _ tag segs cur text hs hc

/-- One line-loop iteration preserves the length bound. -/
theorem processLine_bound (st : ParseState) (line : List Char)
    (h1 : ∀ s ∈ st.segments, s.Text.length ≤ maxSegmentCharLength)
    (h2 : st.currentText.length ≤ maxSegmentCharLength) :
    (∀ s ∈ (processLine st line).segments, s.Text.length ≤ maxSegmentCharLength) ∧
    (processLine st line).currentText.length ≤ maxSegmentCharLength := by
  simp only [processLine]
  by_cases hline : trimSpace line = []
  · simp only [if_pos hline]
    exact ⟨h1, h2⟩
  · simp only [if_neg hline]
    rcases hm : findTwoTags (if st.textBuffer ≠ [] then
        st.textBuffer ++ ' ' :: trimSpace line else trimSpace line) with
      _ | ⟨speakerTag, vvStyleTag, textPart⟩
    · simp only [hm]
      by_cases htag : st.currentTag ≠ []
      · simp only [if_pos htag]
        exact appendAndSplit_bound _ _ _ _ h1 h2
      · simp only [if_neg htag]
        exact ⟨h1, h2⟩
    · simp only [hm]
      by_cases hflush : st.currentTag ≠ [] ∧ speakerTag ++ vvStyleTag ≠ st.currentTag
      · simp only [if_pos hflush]
        have hsegs1 := flushAndReset_bound st.segments st.currentTag st.currentText h1 h2
        by_cases htp : textPart = []
        · simp only [if_pos htp]
          exact ⟨hsegs1, by decide⟩
        · simp only [if_neg htp]
          exact appendAndSplit_bound _ _ _ _ hsegs1 (by decide)
      · simp only [if_neg hflush]
        by_cases htp : textPart = []
        · simp only [if_pos htp]
          exact ⟨h1, h2⟩
        · simp only [if_neg htp]
          exact appendAndSplit_bound _ _ _ _ h1 h2

/-- The whole line loop preserves the length bound. -/
theorem parseLoop_bound (lines : List (List Char)) :
    ∀ (st : ParseState),
      (∀ s ∈ st.segments, s.Text.length ≤ maxSegmentCharLength) →
      st.currentText.length ≤ maxSegmentCharLength →
      (∀ s ∈ (lines.foldl processLine st).segments,
        s.Text.length ≤ maxSegmentCharLength) ∧
      (lines.foldl processLine st).currentText.length ≤ maxSegmentCharLength := by
  induction lines with
  | nil => intro st h1 h2; exact ⟨h1, h2⟩
  | cons l ls ih =>
    intro st h1 h2
    obtain ⟨g1, g2⟩ := processLine_bound st l h1 h2
    exact ih (processLine st l) g1 g2

/-- Every segment of `mainSegments` is within the budget. -/
theorem mainSegments_bound (script : List Char) :
    ∀ s ∈ mainSegments script, s.Text.length ≤ maxSegmentCharLength := by
  obtain ⟨g1, g2⟩ := parseLoop_bound (splitLines script) initParseState
    (by simp [initParseState]) (by simp [initParseState, maxSegmentCharLength])
  exact flushAndReset_bound _ _ _ g1 g2

/-- C5 (amended): every segment produced by the line-accumulation loop of
`parseScript` respects the 250-rune budget; only the single optional final
segment synthesized from leftover untagged end-of-input text escapes the
bound. -/
theorem parseScript_length_bound (script : List Char) :
    ∃ pre leftover, parseScript script = pre ++ leftover ∧
      (∀ seg ∈ pre, seg.Text.length ≤ maxSegmentCharLength) ∧
      leftover.length ≤ 1 := by
  have hmain := mainSegments_bound script
  have heq : parseScript script =
      finishParsing fallbackDefaultTag (parseLoopState script) := rfl
  have hfold : flushAndReset (parseLoopState script).segments
      (parseLoopState script).currentTag (parseLoopState script).currentText =
      mainSegments script := rfl
  rw [heq]
  simp only [finishParsing, hfold]
  split
  · split
    · rename_i lastSeg _
      obtain ⟨extra, he, hlen, _⟩ := flushSegment_shape (mainSegments script)
        lastSeg.SpeakerTag (parseLoopState script).textBuffer
      exact ⟨mainSegments script, extra, he, hmain, hlen⟩
    · split
      · obtain ⟨extra, he, hlen, _⟩ := flushSegment_shape (mainSegments script)
          fallbackDefaultTag (parseLoopState script).textBuffer
        exact ⟨mainSegments script, extra, he, hmain, hlen⟩
      · exact ⟨mainSegments script, [], by simp, hmain, by simp⟩
  · exact ⟨mainSegments script, [], by simp, hmain, by simp⟩

/-- Input of the C5 counterexample: a single untagged 251-character line. -/
def c5Script : List Char := List.replicate 251 'a'

/-- C5 counterexample: an untagged-only script is emitted via the leftover
path under the fallback tag without any length enforcement, producing a
segment of 251 runes, above the 250-rune bound the claim asserts for all
segments. -/
theorem parseScript_cex :
    parseScript c5Script = [⟨fallbackDefaultTag, List.replicate 251 'a'⟩] ∧
    maxSegmentCharLength < (List.replicate 251 'a').length := by decide

/-! ### Tag well-formedness (C10) -/

theorem takeUntilRB_isSome (l : List Char) (h : ']' ∈ l) :
    ∃ as bs, takeUntilRB l = some (as, bs) := by
  induction l with
  | nil => cases h
  | cons c cs ih =>
    by_cases hc : c = ']'
    · exact ⟨[], cs, by simp [takeUntilRB, hc]⟩
    · have hm : ']' ∈ cs := by
        rcases List.mem_cons.1 h with h1 | h1
        · exact absurd h1.symm hc
        · exact h1
      obtain ⟨as, bs, hab⟩ := ih hm
      exact ⟨c :: as, bs, by simp [takeUntilRB, hc, hab]⟩

theorem scanG1_shape : ∀ (s acc g1 g2 g3 : List Char),
    scanG1 acc s = some (g1, g2, g3) →
    ∃ m ms, g1 = '[' :: m :: ms ++ [']'] := by
  intro s
  induction s with
  | nil => intro acc g1 g2 g3 h; simp [scanG1] at h
  | cons c rest ih =>
    intro acc g1 g2 g3 h
    simp only [scanG1] at h
    by_cases hcond : c = ']' ∧ acc ≠ []
    · rw [if_pos hcond] at h
      cases htail : matchTailAfterG1 rest with
      | none =>
        rw [htail] at h
        exact ih (c :: acc) g1 g2 g3 h
      | some pair =>
        rw [htail] at h
        obtain ⟨p2, p3⟩ := pair
        simp only [Option.some.injEq, Prod.mk.injEq] at h
        obtain ⟨hg1, _, _⟩ := h
        have hacc : acc.reverse ≠ [] := by
          simpa using hcond.2
        obtain ⟨m, ms, hrev⟩ := List.exists_cons_of_ne_nil hacc
        exact ⟨m, ms, by rw [← hg1, hrev]⟩
    · rw [if_neg hcond] at h
      exact ih (c :: acc) g1 g2 g3 h

/-- The combined tag assembled from a successful two-group match begins
with a bracketed group. -/
theorem findTwoTags_tagOk (line g1 g2 g3 : List Char)
    (h : findTwoTags line = some (g1, g2, g3)) :
    (findLeadingBracket (g1 ++ g2)).isSome := by
  have hshape : ∃ m ms, g1 = '[' :: m :: ms ++ [']'] := by
    cases line with
    | nil => simp [findTwoTags] at h
    | cons c rest =>
      simp only [findTwoTags] at h
      by_cases hc : c = '['
      · rw [if_pos hc] at h
        exact scanG1_shape rest [] g1 g2 g3 h
      · rw [if_neg hc] at h
        cases h
  obtain ⟨m, ms, hg1⟩ := hshape
  have hmem : ']' ∈ ms ++ ']' :: g2 := by simp
  obtain ⟨as, bs, hab⟩ := takeUntilRB_isSome _ hmem
  subst hg1
  simp only [List.cons_append, List.append_assoc, List.singleton_append]
  simp [findLeadingBracket, hab]

/-- Emission helpers preserve tag well-formedness. -/
theorem flushSegment_tags (segs : List scriptSegment) (tag text : List Char)
    (hsegs : ∀ s ∈ segs, (findLeadingBracket s.SpeakerTag).isSome)
    (htag : (findLeadingBracket tag).isSome) :
    ∀ s ∈ flushSegment segs tag text, (findLeadingBracket s.SpeakerTag).isSome := by
  obtain ⟨extra, heq, _, hall⟩ := flushSegment_shape segs tag text
  rw [heq]
  intro s hs
  rcases List.mem_append.1 hs with h | h
  · exact hsegs s h
  · rw [(hall s h).1]
    exact htag

theorem flushAndReset_tags (segs : List scriptSegment) (tag cur : List Char)
    (hsegs : ∀ s ∈ segs, (findLeadingBracket s.SpeakerTag).isSome)
    (htag : tag = [] ∨ (findLeadingBracket tag).isSome) :
    ∀ s ∈ flushAndReset segs tag cur, (findLeadingBracket s.SpeakerTag).isSome := by
  simp only [flushAndReset]
  split
  · rename_i hcond
    rcases htag with h | h
    · exact absurd h hcond.2
    · exact flushSegment_tags segs tag cur hsegs h
  · exact hsegs

theorem appendAndSplitF_tags :
    ∀ (fuel : Nat) (tag : List Char) (segs : List scriptSegment)
      (cur text : List Char),
      (∀ s ∈ segs, (findLeadingBracket s.SpeakerTag).isSome) →
      (findLeadingBracket tag).isSome →
      ∀ s ∈ (appendAndSplitF fuel tag segs cur text).1,
        (findLeadingBracket s.SpeakerTag).isSome := by
  intro fuel
  induction fuel with
  | zero =>
    intro tag segs cur text hs _
    cases text <;> exact hs
  | succ f ih =>
    intro tag segs cur text hs htag
    cases text with
    | nil => exact hs
    | cons c cs =>
      rcases hsp : safeSplit cur (c :: cs) with ⟨p, r⟩
      simp only [appendAndSplitF, hsp]
      by_cases hr : r = []
      · simp only [if_pos hr]
        exact hs
      · simp only [if_neg hr]
        exact ih tag _ [] r (flushAndReset_tags _ tag _ hs (Or.inr htag)) htag

theorem appendAndSplit_tags (tag : List Char) (segs : List scriptSegment)
    (cur text : List Char)
    (hs : ∀ s ∈ segs, (findLeadingBracket s.SpeakerTag).isSome)
    (htag : (findLeadingBracket tag).isSome) :
    ∀ s ∈ (appendAndSplit tag segs cur text).1,
      (findLeadingBracket s.SpeakerTag).isSome :=
  appendAndSplitF_tags _ tag segs cur text hs htag

/-- One line-loop iteration preserves tag well-formedness of the emitted
segments and of the open tag. -/
theorem processLine_tags (st : ParseState) (line : List Char)
    (h1 : ∀ s ∈ st.segments, (findLeadingBracket s.SpeakerTag).isSome)
    (h2 : st.currentTag = [] ∨ (findLeadingBracket st.currentTag).isSome) :
    (∀ s ∈ (processLine st line).segments, (findLeadingBracket s.SpeakerTag).isSome) ∧
    ((processLine st line).currentTag = [] ∨
      (findLeadingBracket (processLine st line).currentTag).isSome) := by
  simp only [processLine]
  by_cases hline : trimSpace line = []
  · simp only [if_pos hline]
    exact ⟨h1, h2⟩
  · simp only [if_neg hline]
    rcases hm : findTwoTags (if st.textBuffer ≠ [] then
        st.textBuffer ++ ' ' :: trimSpace line else trimSpace line) with
      _ | ⟨speakerTag, vvStyleTag, textPart⟩
    · simp only [hm]
      by_cases htag : st.currentTag ≠ []
      · simp only [if_pos htag]
        exact ⟨appendAndSplit_tags _ _ _ _ h1 (h2.resolve_left htag), h2⟩
      · simp only [if_neg htag]
        exact ⟨h1, h2⟩
    · simp only [hm]
      have hnew : (findLeadingBracket (speakerTag ++ vvStyleTag)).isSome :=
        findTwoTags_tagOk _ _ _ _ hm
      by_cases hflush : st.currentTag ≠ [] ∧ speakerTag ++ vvStyleTag ≠ st.currentTag
      · simp only [if_pos hflush]
        have hsegs1 := flushAndReset_tags st.segments st.currentTag st.currentText h1 h2
        by_cases htp : textPart = []
        · simp only [if_pos htp]
          exact ⟨hsegs1, Or.inl (by trivial)⟩
        · simp only [if_neg htp]
          exact ⟨appendAndSplit_tags _ _ _ _ hsegs1 hnew, Or.inr hnew⟩
      · simp only [if_neg hflush]
        by_cases htp : textPart = []
        · simp only [if_pos htp]
          exact ⟨h1, h2⟩
        · simp only [if_neg htp]
          exact ⟨appendAndSplit_tags _ _ _ _ h1 hnew, Or.inr hnew⟩

theorem parseLoop_tags (lines : List (List Char)) :
    ∀ (st : ParseState),
      (∀ s ∈ st.segments, (findLeadingBracket s.SpeakerTag).isSome) →
      (st.currentTag = [] ∨ (findLeadingBracket st.currentTag).isSome) →
      (∀ s ∈ (lines.foldl processLine st).segments,
        (findLeadingBracket s.SpeakerTag).isSome) ∧
      ((lines.foldl processLine st).currentTag = [] ∨
        (findLeadingBracket (lines.foldl processLine st).currentTag).isSome) := by
  induction lines with
  | nil => intro st h1 h2; exact ⟨h1, h2⟩
  | cons l ls ih =>
    intro st h1 h2
    obtain ⟨g1, g2⟩ := processLine_tags st l h1 h2
    exact ih (processLine st l) g1 g2

theorem mainSegments_tags (script : List Char) :
    ∀ s ∈ mainSegments script, (findLeadingBracket s.SpeakerTag).isSome := by
  obtain ⟨g1, g2⟩ := parseLoop_tags (splitLines script) initParseState
    (by simp [initParseState]) (Or.inl rfl)
  exact flushAndReset_tags _ _ _ g1 g2

/-- Every segment `parseScript` outputs carries a bracket-headed tag. -/
theorem parseScript_tags (script : List Char) :
    ∀ s ∈ parseScript script, (findLeadingBracket s.SpeakerTag).isSome := by
  have hmain := mainSegments_tags script
  have heq : parseScript script =
      finishParsing fallbackDefaultTag (parseLoopState script) := rfl
  have hfold : flushAndReset (parseLoopState script).segments
      (parseLoopState script).currentTag (parseLoopState script).currentText =
      mainSegments script := rfl
  rw [heq]
  simp only [finishParsing, hfold]
  split
  · split
    · rename_i lastSeg hlast
      exact flushSegment_tags _ _ _ hmain
        (hmain lastSeg (List.mem_of_mem_getLast? hlast))
    · split
      · exact flushSegment_tags _ _ _ hmain (by decide)
      · exact hmain
  · exact hmain

/-- C10: every segment emitted by parseScript has a non-empty tag that
begins with a bracketed group, and consequently `determineStyleID` can
never take its tag-parse-failure branch on a parser-produced segment: any
resolution error is the no-style/no-default error. -/
theorem parseScript_tag_wellformed (script : List Char) (seg : scriptSegment)
    (hseg : seg ∈ parseScript script) :
    seg.SpeakerTag ≠ [] ∧ (findLeadingBracket seg.SpeakerTag).isSome ∧
    ∀ (sd : SpeakerData) (index : Nat) (e : StyleErr),
      determineStyleID sd (String.mk seg.SpeakerTag) index = Except.error e →
      e = StyleErr.notFound (String.mk seg.SpeakerTag) index := by
  have hok := parseScript_tags script seg hseg
  refine ⟨?_, hok, ?_⟩
  · intro hnil
    rw [hnil] at hok
    simp [findLeadingBracket] at hok
  · intro sd index e he
    simp only [determineStyleID] at he
    cases hlook : List.lookup (String.mk seg.SpeakerTag) sd.StyleIDMap with
    | some v =>
      simp only [hlook] at he
      exact Except.noConfusion he
    | none =>
      simp only [hlook] at he
      cases hfb : findLeadingBracket seg.SpeakerTag with
      | none =>
        rw [hfb] at hok
        cases hok
      | some pair =>
        obtain ⟨base, rest⟩ := pair
        simp only [hfb] at he
        cases hdef : List.lookup (String.mk base) sd.DefaultStyleMap with
        | some fk =>
          simp only [hdef] at he
          exact Except.noConfusion he
        | none =>
          simp only [hdef, Except.error.injEq] at he
          exact he.symm

/-- The script and segment of the C10 witness. -/
def c10Script : List Char := "[a][b] hi".data

def c10Seg : scriptSegment := ⟨"[a][b]".data, "hi".data⟩

/-- Witness for `parseScript_tag_wellformed` at a concrete script. -/
theorem parseScript_tag_wellformed_witness :
    c10Seg ∈ parseScript c10Script ∧ c10Seg.SpeakerTag ≠ [] ∧
    (findLeadingBracket c10Seg.SpeakerTag).isSome := by
  have h := parseScript_tag_wellformed c10Script c10Seg (by decide)
  exact ⟨by decide, h.1, h.2.1⟩

/-! ### Leftover untagged text at end of input (C9) -/

theorem tagOk_ne_nil (t : List Char) (h : (findLeadingBracket t).isSome) :
    t ≠ [] := by
  intro hnil
  rw [hnil] at h
  simp [findLeadingBracket] at h

/-- With non-empty text and tag, `flushSegment` appends exactly the cleaned
segment (or nothing when the text cleans to empty). -/
theorem flushSegment_eq_append (segs : List scriptSegment) (tag text : List Char)
    (htext : text ≠ []) (htag : tag ≠ []) :
    flushSegment segs tag text =
      segs ++ (if trimSpace (stripEmotionTags text) ≠ []
               then [⟨tag, trimSpace (stripEmotionTags text)⟩] else []) := by
  simp only [flushSegment]
  rw [if_neg (by simp [htext, htag])]
  split
  · rfl
  · simp

/-- C9: when untagged text remains buffered at end of input, parseScript
emits it (after decorative-tag cleanup, which may drop it if nothing
remains) as one final segment tagged with the last emitted segment's tag
when at least one segment was produced; otherwise with the fallback tag
when one is configured; and when no fallback is configured the text is
dropped and the parse still returns normally. -/
theorem parseScript_leftover (script fallbackTag : List Char)
    (hbuf : (parseLoopState script).textBuffer ≠ []) :
    (∀ lastSeg, (mainSegments script).getLast? = some lastSeg →
      parseScriptWith script fallbackTag =
        mainSegments script ++
          (if trimSpace (stripEmotionTags (parseLoopState script).textBuffer) ≠ []
           then [⟨lastSeg.SpeakerTag,
             trimSpace (stripEmotionTags (parseLoopState script).textBuffer)⟩]
           else [])) ∧
    ((mainSegments script).getLast? = none → fallbackTag ≠ [] →
      parseScriptWith script fallbackTag =
        (if trimSpace (stripEmotionTags (parseLoopState script).textBuffer) ≠ []
         then [⟨fallbackTag,
           trimSpace (stripEmotionTags (parseLoopState script).textBuffer)⟩]
         else [])) ∧
    ((mainSegments script).getLast? = none → fallbackTag = [] →
      parseScriptWith script fallbackTag = []) := by
  have heq : parseScriptWith script fallbackTag =
      finishParsing fallbackTag (parseLoopState script) := rfl
  have hfold : flushAndReset (parseLoopState script).segments
      (parseLoopState script).currentTag (parseLoopState script).currentText =
      mainSegments script := rfl
  refine ⟨?_, ?_, ?_⟩
  · intro lastSeg hlast
    have htag : lastSeg.SpeakerTag ≠ [] :=
      tagOk_ne_nil _ (mainSegments_tags script lastSeg
        (List.mem_of_mem_getLast? hlast))
    rw [heq]
    simp only [finishParsing, hfold]
    rw [if_pos hbuf]
    simp only [hlast]
    exact flushSegment_eq_append _ _ _ hbuf htag
  · intro hnone hfb
    have hsegs : mainSegments script = [] := List.getLast?_eq_none_iff.1 hnone
    rw [heq]
    simp only [finishParsing, hfold]
    rw [if_pos hbuf]
    simp only [hnone]
    rw [if_pos hfb, hsegs, flushSegment_eq_append [] _ _ hbuf hfb]
    simp
  · intro hnone hfb
    have hsegs : mainSegments script = [] := List.getLast?_eq_none_iff.1 hnone
    rw [heq]
    simp only [finishParsing, hfold]
    rw [if_pos hbuf]
    simp only [hnone]
    rw [if_neg (by simp [hfb]), hsegs]

/-- The C9 witness script: a tagged line, a tag-only line that closes the
open segment, then a trailing untagged line. -/
def c9Script : List Char := "[a][b] hi\n[c][d]\nxx".data

/-- Witness for `parseScript_leftover`: the trailing untagged text is
emitted with the last emitted segment's tag. -/
theorem parseScript_leftover_witness :
    parseScriptWith c9Script [] =
      [⟨"[a][b]".data, "hi".data⟩, ⟨"[a][b]".data, "xx".data⟩] := by
  have h := (parseScript_leftover c9Script [] (by decide)).1
    ⟨"[a][b]".data, "hi".data⟩ (by decide)
  rw [h]
  decide

/-! ## SynthesisOrchestrator result aggregation
(src/internal/voicevox/engine.go `PostToEngine`)

The per-segment work (style resolution, query, synthesis — `processSegment`)
is abstracted into a per-index `outcome`, and the unspecified completion
order of the workers into the list `order` in which results are delivered
on the results channel. -/

/-- A worker result as delivered on the results channel. `err` carries the
segment index together with the cause, exactly as the Go error strings
constructed by `processSegment`/`determineStyleID` embed the index. -/
structure segmentResult where
  index : Nat
  wavData : Option (List Nat)
  err : Option (Nat × String)
deriving DecidableEq

/-- The result the worker for segment `i` writes. -/
def mkSegmentResult (outcome : Nat → Except String (List Nat)) (i : Nat) :
    segmentResult :=
  match outcome i with
  | .error c => ⟨i, none, some (i, c)⟩
  | .ok w => ⟨i, some w, none⟩

/-- The indices `PostToEngine` launches workers for: segments with
non-empty text (empty-text segments are skipped). -/
def workedIndices (segments : List scriptSegment) : List Nat :=
  (List.range segments.length).filter
    (fun i => (segments.getD i ⟨[], []⟩).Text ≠ [])

/-- One step of the aggregation loop: collect an error, or scatter
successful audio into the slot of its original index (with the bounds
check of the source). -/
def aggregateStep (n : Nat)
    (acc : List (Nat × String) × List (Option (List Nat)))
    (res : segmentResult) : List (Nat × String) × List (Option (List Nat)) :=
  match res.err with
  | some e => (acc.1 ++ [e], acc.2)
  | none =>
    match res.wavData with
    | some w => if res.index < n then (acc.1, acc.2.set res.index (some w)) else acc
    | none => acc

/-- The aggregation loop over all delivered results. -/
def aggregateResults (n : Nat) (results : List segmentResult) :
    List (Nat × String) × List (Option (List Nat)) :=
  results.foldl (aggregateStep n) ([], List.replicate n none)

/-- The ordered audio list handed to `combineWavData`: the scattered slots
with the nil entries skipped. -/
def finalAudioList (segments : List scriptSegment)
    (outcome : Nat → Except String (List Nat)) (order : List Nat) :
    List (List Nat) :=
  ((aggregateResults segments.length
    (order.map (mkSegmentResult outcome))).2).filterMap id

/-- The distinct error returns of `PostToEngine`. -/
inductive PostErr where
  | noSegments
  | apiErrors (errs : List (Nat × String))
  | noValidData
  | combineFailed (msg : String)
deriving DecidableEq

/-- `PostToEngine`'s aggregation and combination phases: fail on zero
segments, aggregate all results, fail with the collected error list if any
error occurred, rebuild the ordered audio list, fail if it is empty,
combine, and only then produce the bytes written to the output file (an
error return writes no file; a combine panic crashes the call). -/
def PostToEngine (segments : List scriptSegment)
    (outcome : Nat → Except String (List Nat)) (order : List Nat) :
    GoResult PostErr (List Nat) :=
  if segments.length = 0 then .error .noSegments
  else
    let agg := aggregateResults segments.length (order.map (mkSegmentResult outcome))
    if agg.1 ≠ [] then .error (.apiErrors agg.1)
    else
      let finalList := agg.2.filterMap id
      if finalList = [] then .error .noValidData
      else
        match combineWavData finalList with
        | .error e => .error (.combineFailed e)
        | .panic => .panic
        | .ok combined => .ok combined

/-! ### Aggregation lemmas -/

theorem mkSegmentResult_index (outcome : Nat → Except String (List Nat)) (i : Nat) :
    (mkSegmentResult outcome i).index = i := by
  simp only [mkSegmentResult]
  cases outcome i <;> rfl

theorem aggregate_fst (n : Nat) :
    ∀ (results : List segmentResult) (errs : List (Nat × String))
      (slots : List (Option (List Nat))),
      (results.foldl (aggregateStep n) (errs, slots)).1 =
        errs ++ results.filterMap (fun r => r.err) := by
  intro results
  induction results with
  | nil => intro errs slots; simp
  | cons r rs ih =>
    intro errs slots
    simp only [List.foldl_cons, List.filterMap_cons]
    cases hre : r.err with
    | some e =>
      simp only [aggregateStep, hre]
      rw [ih]
      simp
    | none =>
      simp only [aggregateStep, hre]
      cases hrw : r.wavData with
      | some w =>
        dsimp only
        by_cases hi : r.index < n
        · rw [if_pos hi, ih]
        · rw [if_neg hi, ih]
      | none =>
        dsimp only
        rw [ih]

theorem aggregate_snd_length (n : Nat) :
    ∀ (results : List segmentResult) (errs : List (Nat × String))
      (slots : List (Option (List Nat))),
      (results.foldl (aggregateStep n) (errs, slots)).2.length = slots.length := by
  intro results
  induction results with
  | nil => intro errs slots; rfl
  | cons r rs ih =>
    intro errs slots
    simp only [List.foldl_cons]
    cases hre : r.err with
    | some e => simp only [aggregateStep, hre]; rw [ih]
    | none =>
      simp only [aggregateStep, hre]
      cases hrw : r.wavData with
      | some w =>
        dsimp only
        by_cases hi : r.index < n
        · rw [if_pos hi, ih]
          simp
        · rw [if_neg hi, ih]
      | none =>
        dsimp only
        rw [ih]

/-- The final content of slot `j` depends only on whether some delivered
result carries index `j` and on the (per-index) outcome — not on delivery
order. -/
theorem aggregate_snd_getD (n : Nat) (outcome : Nat → Except String (List Nat)) :
    ∀ (results : List segmentResult) (errs : List (Nat × String))
      (slots : List (Option (List Nat))),
      slots.length = n →
      (∀ r ∈ results, r = mkSegmentResult outcome r.index) →
      ∀ j, j < n →
        ((results.foldl (aggregateStep n) (errs, slots)).2).getD j none =
          (if j ∈ results.map (fun r => r.index) ∧ (outcome j).toOption.isSome
           then (outcome j).toOption else slots.getD j none) := by
  intro results
  induction results with
  | nil =>
    intro errs slots _ _ j _
    simp
  | cons r rs ih =>
    intro errs slots hlen hall j hj
    have hr := hall r (by simp)
    simp only [List.foldl_cons, List.map_cons]
    cases houtr : outcome r.index with
    | error c =>
      have hstep : aggregateStep n (errs, slots) r = (errs ++ [(r.index, c)], slots) := by
        rw [hr]
        simp [aggregateStep, mkSegmentResult, houtr, mkSegmentResult_index]
      rw [hstep, ih _ _ hlen (fun x hx => hall x (by simp [hx])) j hj]
      by_cases h1 : j ∈ rs.map (fun r => r.index) ∧ (outcome j).toOption.isSome = true
      · rw [if_pos h1, if_pos ⟨by simp [h1.1], h1.2⟩]
      · rw [if_neg h1,
          if_neg (?_ : ¬(j ∈ r.index :: rs.map (fun r => r.index) ∧
            (outcome j).toOption.isSome = true))]
        rintro ⟨hmem, hok⟩
        rcases List.mem_cons.1 hmem with hji | hji
        · rw [hji, houtr] at hok
          simp [Except.toOption] at hok
        · exact h1 ⟨hji, hok⟩
    | ok w =>
      by_cases hi : r.index < n
      · have hstep : aggregateStep n (errs, slots) r =
            (errs, slots.set r.index (some w)) := by
          rw [hr]
          simp [aggregateStep, mkSegmentResult, houtr, mkSegmentResult_index, hi]
        rw [hstep,
          ih _ _ (by simp [hlen]) (fun x hx => hall x (by simp [hx])) j hj]
        by_cases h1 : j ∈ rs.map (fun r => r.index) ∧ (outcome j).toOption.isSome = true
        · rw [if_pos h1, if_pos ⟨by simp [h1.1], h1.2⟩]
        · rw [if_neg h1]
          by_cases hji : j = r.index
          · subst hji
            rw [if_pos ⟨by simp, by simp [houtr, Except.toOption]⟩]
            rw [List.getD_eq_getElem?_getD, List.getElem?_set_self (by omega), houtr]
            rfl
          · rw [List.getD_eq_getElem?_getD,
              List.getElem?_set_ne (fun h => hji h.symm),
              ← List.getD_eq_getElem?_getD,
              if_neg (?_ : ¬(j ∈ r.index :: rs.map (fun r => r.index) ∧
                (outcome j).toOption.isSome = true))]
            rintro ⟨hmem, hok⟩
            rcases List.mem_cons.1 hmem with h | h
            · exact hji h
            · exact h1 ⟨h, hok⟩
      · have hstep : aggregateStep n (errs, slots) r = (errs, slots) := by
          rw [hr]
          simp [aggregateStep, mkSegmentResult, houtr, mkSegmentResult_index, hi]
        rw [hstep,
          ih _ _ hlen (fun x hx => hall x (by simp [hx])) j hj]
        by_cases h1 : j ∈ rs.map (fun r => r.index) ∧ (outcome j).toOption.isSome = true
        · rw [if_pos h1, if_pos ⟨by simp [h1.1], h1.2⟩]
        · rw [if_neg h1,
            if_neg (?_ : ¬(j ∈ r.index :: rs.map (fun r => r.index) ∧
              (outcome j).toOption.isSome = true))]
          rintro ⟨hmem, hok⟩
          rcases List.mem_cons.1 hmem with h | h
          · omega
          · exact h1 ⟨h, hok⟩

theorem getD_replicate_none (n j : Nat) :
    (List.replicate n (none : Option (List Nat))).getD j none = none := by
  rw [List.getD_eq_getElem?_getD, List.getElem?_replicate]
  split <;> rfl

theorem filterMap_id_eq_range (l : List (Option (List Nat))) :
    l.filterMap id = (List.range l.length).filterMap (fun j => l.getD j none) := by
  induction l with
  | nil => simp
  | cons a t ih =>
    cases a with
    | none =>
      simp [List.range_succ_eq_map, List.filterMap_map, Function.comp_def, ih]
    | some w =>
      simp [List.range_succ_eq_map, List.filterMap_map, Function.comp_def, ih]

/-- C2: for a fixed assignment of per-segment outcomes, the ordered audio
list `PostToEngine` hands to `combineWavData` is the successful worked
segments' buffers in original segment-index order — the same list for every
delivery order (permutation) of the worker results. -/
theorem finalAudioList_order_independent (segments : List scriptSegment)
    (outcome : Nat → Except String (List Nat)) (order : List Nat)
    (hperm : order.Perm (workedIndices segments)) :
    finalAudioList segments outcome order =
      (workedIndices segments).filterMap (fun i => (outcome i).toOption) := by
  have hall : ∀ r ∈ order.map (mkSegmentResult outcome),
      r = mkSegmentResult outcome r.index := by
    intro r hr
    obtain ⟨i, _, hi⟩ := List.mem_map.1 hr
    rw [← hi, mkSegmentResult_index]
  have hslots := aggregate_snd_getD segments.length outcome
    (order.map (mkSegmentResult outcome)) []
    (List.replicate segments.length none) (by simp) hall
  have hmemidx : (order.map (mkSegmentResult outcome)).map (fun r => r.index) =
      order := by
    rw [List.map_map]
    calc order.map ((fun r => segmentResult.index r) ∘ mkSegmentResult outcome)
        = order.map id :=
          List.map_congr_left (fun i _ => mkSegmentResult_index outcome i)
      _ = order := List.map_id order
  have hflen : ((order.map (mkSegmentResult outcome)).foldl
      (aggregateStep segments.length)
      ([], List.replicate segments.length none)).2.length = segments.length := by
    rw [aggregate_snd_length]
    simp
  have hstep1 : finalAudioList segments outcome order =
      (List.range segments.length).filterMap
        (fun j => (((order.map (mkSegmentResult outcome)).foldl
          (aggregateStep segments.length)
          ([], List.replicate segments.length none)).2).getD j none) := by
    rw [finalAudioList, aggregateResults, filterMap_id_eq_range, hflen]
  rw [hstep1]
  have hstep2 : (workedIndices segments).filterMap (fun i => (outcome i).toOption) =
      (List.range segments.length).filterMap
        (fun j => if (segments.getD j ⟨[], []⟩).Text ≠ [] then (outcome j).toOption
                  else none) := by
    rw [workedIndices, List.filterMap_filter]
    simp only [decide_eq_true_eq]
  rw [hstep2]
  refine List.filterMap_congr (fun j hj => ?_)
  have hjn : j < segments.length := List.mem_range.1 hj
  rw [hslots j hjn, hmemidx, getD_replicate_none]
  by_cases hp : (segments.getD j ⟨[], []⟩).Text ≠ []
  · rw [if_pos hp]
    by_cases hok : (outcome j).toOption.isSome = true
    · rw [if_pos ⟨(hperm.mem_iff).2 (List.mem_filter.2 ⟨hj, by simpa using hp⟩), hok⟩]
    · rw [if_neg (fun hc => hok hc.2)]
      rw [Option.not_isSome_iff_eq_none] at hok
      exact hok.symm
  · rw [if_neg hp, if_neg ?_]
    rintro ⟨hmem, _⟩
    have := List.mem_filter.1 ((hperm.mem_iff).1 hmem)
    exact hp (by simpa using this.2)

/-- The worked segments and all-successful outcomes of the C2 witness. -/
def c2Segs : List scriptSegment :=
  [⟨"[a][b]".data, "x".data⟩, ⟨"[a][b]".data, "y".data⟩, ⟨"[a][b]".data, "z".data⟩]

def c2Outcome : Nat → Except String (List Nat) := fun i => .ok [10 * (i + 1)]

/-- Witness for `finalAudioList_order_independent`: results delivered in
reverse completion order still yield the audio in original index order. -/
theorem finalAudioList_order_independent_witness :
    finalAudioList c2Segs c2Outcome [2, 0, 1] = [[10], [20], [30]] := by
  rw [finalAudioList_order_independent c2Segs c2Outcome [2, 0, 1] (by decide)]
  decide

/-- C3: whenever at least one worked segment fails, `PostToEngine` returns
the aggregate error whose entries are exactly the failing segments'
(index, cause) pairs — every failure is collected, not just the first — and
no output is produced (an error return never reaches the file write);
partial success is still an overall failure. -/
theorem PostToEngine_aggregates_errors (segments : List scriptSegment)
    (outcome : Nat → Except String (List Nat)) (order : List Nat)
    (hperm : order.Perm (workedIndices segments))
    (hfail : ∃ i ∈ workedIndices segments, ∃ c, outcome i = .error c) :
    ∃ errs, PostToEngine segments outcome order = .error (.apiErrors errs) ∧
      errs.Perm ((workedIndices segments).filterMap
        (fun i => match outcome i with
                  | .error c => some (i, c)
                  | .ok _ => none)) ∧
      errs ≠ [] := by
  obtain ⟨i, hiw, c, hc⟩ := hfail
  have hgmk : ∀ i, (mkSegmentResult outcome i).err =
      (match outcome i with
       | .error c => some (i, c)
       | .ok _ => none) := by
    intro i
    cases h : outcome i <;> simp [mkSegmentResult, h]
  have herrs : (aggregateResults segments.length
      (order.map (mkSegmentResult outcome))).1 =
      order.filterMap (fun i => match outcome i with
                                | .error c => some (i, c)
                                | .ok _ => none) := by
    rw [aggregateResults, aggregate_fst, List.nil_append, List.filterMap_map]
    exact List.filterMap_congr (fun i _ => hgmk i)
  have hmemc : (i, c) ∈ (workedIndices segments).filterMap
      (fun i => match outcome i with
                | .error c => some (i, c)
                | .ok _ => none) :=
    List.mem_filterMap.2 ⟨i, hiw, by rw [hc]⟩
  have hpermerr := hperm.filterMap
    (fun i => match outcome i with
              | .error c => some (i, c)
              | .ok _ => none)
  have hne : order.filterMap (fun i => match outcome i with
      | .error c => some (i, c)
      | .ok _ => none) ≠ [] := by
    intro hnil
    rw [← hpermerr.mem_iff] at hmemc
    rw [hnil] at hmemc
    cases hmemc
  have hn0 : ¬ segments.length = 0 := by
    have := List.mem_range.1 (List.mem_filter.1 hiw).1
    omega
  refine ⟨order.filterMap (fun i => match outcome i with
      | .error c => some (i, c)
      | .ok _ => none), ?_, hpermerr, hne⟩
  simp only [PostToEngine]
  rw [if_neg hn0, herrs, if_pos hne]

/-- The five segments of the C3 witness, with outcomes failing exactly at
indices 2 and 4, and results delivered in reverse order. -/
def c3Segs : List scriptSegment :=
  [⟨"[a][b]".data, "q".data⟩, ⟨"[a][b]".data, "r".data⟩, ⟨"[a][b]".data, "s".data⟩,
   ⟨"[a][b]".data, "t".data⟩, ⟨"[a][b]".data, "u".data⟩]

def c3Outcome : Nat → Except String (List Nat) := fun i =>
  if i = 2 ∨ i = 4 then .error "style id not found" else .ok [1]

/-- Witness for `PostToEngine_aggregates_errors` at the claim's 5-segment
scenario with failures at indices 2 and 4. -/
theorem PostToEngine_aggregates_errors_witness :
    ∃ errs, PostToEngine c3Segs c3Outcome [4, 3, 2, 1, 0] =
      .error (.apiErrors errs) ∧ errs ≠ [] := by
  obtain ⟨errs, h1, _, h3⟩ := PostToEngine_aggregates_errors c3Segs c3Outcome
    [4, 3, 2, 1, 0] (by decide) ⟨2, by decide, "style id not found", by decide⟩
  exact ⟨errs, h1, h3⟩

/-! ## Per-segment retry loop (engine.go `processSegment`, attempt loop)

The two API calls are modelled as oracles indexed by how many calls of that
kind were made before (so a re-issued call is visible in the trace), and
the loop records every call and backoff sleep. -/

def maxRetries : Nat := 3

/-- `retryDelay = 2 * time.Second`, in seconds. -/
def retryDelaySeconds : Nat := 2

/-- Events of one `processSegment` run: API calls and backoff sleeps (in
seconds). -/
inductive RetryEvent where
  | queryCall
  | synthCall
  | sleep (seconds : Nat)
deriving DecidableEq

/-- The wrapped error of a segment whose API requests failed on the final
attempt. -/
def mkApiFailMsg (index : Nat) (cause : String) : String :=
  "セグメント " ++ toString index ++ " のAPIリクエストが連続失敗: " ++ cause

/-- The defensive error after the loop (unreachable for `maxRetries ≥ 1`). -/
def mkUnknownFailMsg (index : Nat) : String :=
  "セグメント " ++ toString index ++ " の処理が不明な理由で失敗しました"

/-- The `for attempt := 1; attempt <= maxRetries` loop of `processSegment`:
each attempt runs the audio query and, if it succeeds, the synthesis; on
any error before the final attempt it sleeps `retryDelay * 2^(attempt-1)`
and retries both phases; failure on the final attempt wraps the cause.
`remaining` counts the attempts left, `qc`/`sc` count issued calls of each
kind. Returns the result and the event trace. -/
def retryLoop (q s : Nat → Except String (List Nat)) (index : Nat) :
    Nat → Nat → Nat → Nat → Except String (List Nat) × List RetryEvent
  | 0, _, _, _ => (.error (mkUnknownFailMsg index), [])
  | remaining + 1, attempt, qc, sc =>
    match q qc with
    | .ok queryBody =>
      match s sc with
      | .ok wavData => (.ok wavData, [.queryCall, .synthCall])
      | .error currentErr =>
        if remaining = 0 then
          (.error (mkApiFailMsg index currentErr), [.queryCall, .synthCall])
        else
          let backoffDelay := retryDelaySeconds * 2 ^ (attempt - 1)
          let r2 := retryLoop q s index remaining (attempt + 1) (qc + 1) (sc + 1)
          (r2.1, .queryCall :: .synthCall :: .sleep backoffDelay :: r2.2)
    | .error currentErr =>
      if remaining = 0 then
        (.error (mkApiFailMsg index currentErr), [.queryCall])
      else
        let backoffDelay := retryDelaySeconds * 2 ^ (attempt - 1)
        let r2 := retryLoop q s index remaining (attempt + 1) (qc + 1) sc
        (r2.1, .queryCall :: .sleep backoffDelay :: r2.2)

/-- One full `processSegment` retry phase for a segment. -/
def processSegmentRetry (q s : Nat → Except String (List Nat)) (index : Nat) :
    Except String (List Nat) × List RetryEvent :=
  retryLoop q s index maxRetries 1 0 0

def sleepSecondsOf : RetryEvent → Option Nat
  | .sleep d => some d
  | _ => none

/-- The oracles of the C4 counterexample: the query always succeeds; the
synthesis fails only on its first call. -/
def c4q : Nat → Except String (List Nat) := fun _ => .ok [1]

def c4s : Nat → Except String (List Nat) := fun n =>
  if n = 0 then .error "boom" else .ok [2]

/-- C4 counterexample: after a synthesis failure the loop re-issues the
audio query — the phase that had already succeeded — so the run makes two
query calls, while the claimed same-phase-only retry implies exactly one;
the run still succeeds on the second attempt. -/
theorem processSegmentRetry_cex :
    ((processSegmentRetry c4q c4s 0).2.count RetryEvent.queryCall = 2 ∧
      (processSegmentRetry c4q c4s 0).2 =
        [.queryCall, .synthCall, .sleep 2, .queryCall, .synthCall]) ∧
    (processSegmentRetry c4q c4s 0).1 = .ok [2] := by
  constructor
  · constructor
    · rfl
    · rfl
  · rfl

theorem range_map_pow_cons (dS b k : Nat) :
    (List.range (k + 1)).map (fun a => dS * 2 ^ (b + a)) =
      dS * 2 ^ b :: (List.range k).map (fun a => dS * 2 ^ (b + 1 + a)) := by
  rw [List.range_succ_eq_map, List.map_cons, List.map_map]
  have h2 : ((fun a => dS * 2 ^ (b + a)) ∘ Nat.succ) =
      (fun a => dS * 2 ^ (b + 1 + a)) := by
    funext a
    simp only [Function.comp_apply]
    congr 1
    congr 1
    omega
  rw [h2, Nat.add_zero]

theorem count_query_cons_qs (tr : List RetryEvent) (d : Nat) :
    (RetryEvent.queryCall :: RetryEvent.synthCall :: RetryEvent.sleep d :: tr).count
      RetryEvent.queryCall = tr.count RetryEvent.queryCall + 1 := by
  simp [List.count_cons]

theorem count_query_cons_q (tr : List RetryEvent) (d : Nat) :
    (RetryEvent.queryCall :: RetryEvent.sleep d :: tr).count RetryEvent.queryCall =
      tr.count RetryEvent.queryCall + 1 := by
  simp [List.count_cons]

theorem sleeps_cons_qs (tr : List RetryEvent) (d : Nat) :
    (RetryEvent.queryCall :: RetryEvent.synthCall :: RetryEvent.sleep d :: tr).filterMap
      sleepSecondsOf = d :: tr.filterMap sleepSecondsOf := by
  simp [sleepSecondsOf]

theorem sleeps_cons_q (tr : List RetryEvent) (d : Nat) :
    (RetryEvent.queryCall :: RetryEvent.sleep d :: tr).filterMap sleepSecondsOf =
      d :: tr.filterMap sleepSecondsOf := by
  simp [sleepSecondsOf]

/-- Behavior of the attempt loop for any remaining-attempt budget: one
query call per attempt (both phases re-run on retry), at most `remaining`
attempts, backoff delays `retryDelay * 2^(attempt-1)` growing with the
attempt counter, and failure wrapped only on exhaustion of the budget. -/
theorem retryLoop_spec (q s : Nat → Except String (List Nat)) (index : Nat) :
    ∀ (remaining : Nat), 1 ≤ remaining → ∀ (attempt qc sc : Nat), 1 ≤ attempt →
      1 ≤ (retryLoop q s index remaining attempt qc sc).2.count RetryEvent.queryCall ∧
      (retryLoop q s index remaining attempt qc sc).2.count RetryEvent.queryCall ≤
        remaining ∧
      (retryLoop q s index remaining attempt qc sc).2.filterMap sleepSecondsOf =
        (List.range ((retryLoop q s index remaining attempt qc sc).2.count
          RetryEvent.queryCall - 1)).map
          (fun a => retryDelaySeconds * 2 ^ (attempt - 1 + a)) ∧
      ((∃ w, (retryLoop q s index remaining attempt qc sc).1 = .ok w) ∨
        (∃ c, (retryLoop q s index remaining attempt qc sc).1 =
            .error (mkApiFailMsg index c) ∧
          (retryLoop q s index remaining attempt qc sc).2.count
            RetryEvent.queryCall = remaining)) := by
  intro remaining
  induction remaining with
  | zero => intro h; omega
  | succ n ih =>
    intro _ attempt qc sc hatt
    cases hq : q qc with
    | ok qb =>
      cases hs : s sc with
      | ok w =>
        have hres1 : (retryLoop q s index (n + 1) attempt qc sc).1 = .ok w := by
          simp [retryLoop, hq, hs]
        have hres2 : (retryLoop q s index (n + 1) attempt qc sc).2 =
            [.queryCall, .synthCall] := by
          simp [retryLoop, hq, hs]
        rw [hres2]
        have hcnt : ([RetryEvent.queryCall, RetryEvent.synthCall] :
            List RetryEvent).count RetryEvent.queryCall = 1 := rfl
        exact ⟨by omega, by omega, by rfl, Or.inl ⟨w, hres1⟩⟩
      | error c =>
        by_cases hn : n = 0
        · subst hn
          have hres1 : (retryLoop q s index 1 attempt qc sc).1 =
              .error (mkApiFailMsg index c) := by
            simp [retryLoop, hq, hs]
          have hres2 : (retryLoop q s index 1 attempt qc sc).2 =
              [.queryCall, .synthCall] := by
            simp [retryLoop, hq, hs]
          rw [hres2]
          have hcnt : ([RetryEvent.queryCall, RetryEvent.synthCall] :
              List RetryEvent).count RetryEvent.queryCall = 1 := rfl
          exact ⟨by omega, by omega, by rfl, Or.inr ⟨c, hres1, by omega⟩⟩
        · have hres : retryLoop q s index (n + 1) attempt qc sc =
              ((retryLoop q s index n (attempt + 1) (qc + 1) (sc + 1)).1,
               .queryCall :: .synthCall ::
                 .sleep (retryDelaySeconds * 2 ^ (attempt - 1)) ::
                 (retryLoop q s index n (attempt + 1) (qc + 1) (sc + 1)).2) := by
            simp [retryLoop, hq, hs, hn]
          obtain ⟨ih1, ih2, ih3, ih4⟩ :=
            ih (by omega) (attempt + 1) (qc + 1) (sc + 1) (by omega)
          rw [hres]
          simp only [count_query_cons_qs, sleeps_cons_qs]
          refine ⟨by omega, by omega, ?_, ?_⟩
          · rw [ih3]
            have hc1 : (retryLoop q s index n (attempt + 1) (qc + 1) (sc + 1)).2.count
                RetryEvent.queryCall + 1 - 1 =
                ((retryLoop q s index n (attempt + 1) (qc + 1) (sc + 1)).2.count
                  RetryEvent.queryCall - 1) + 1 := by omega
            rw [hc1, range_map_pow_cons]
            have hfun : ∀ a : Nat, retryDelaySeconds * 2 ^ (attempt + 1 - 1 + a) =
                retryDelaySeconds * 2 ^ (attempt - 1 + 1 + a) := by
              intro a
              congr 1
              congr 1
              omega
            simp only [hfun]
          · rcases ih4 with ⟨w, hw⟩ | ⟨c2, hc2, hcnt⟩
            · exact Or.inl ⟨w, hw⟩
            · exact Or.inr ⟨c2, hc2, by omega⟩
    | error c =>
      by_cases hn : n = 0
      · subst hn
        have hres1 : (retryLoop q s index 1 attempt qc sc).1 =
            .error (mkApiFailMsg index c) := by
          simp [retryLoop, hq]
        have hres2 : (retryLoop q s index 1 attempt qc sc).2 = [.queryCall] := by
          simp [retryLoop, hq]
        rw [hres2]
        have hcnt : ([RetryEvent.queryCall] :
            List RetryEvent).count RetryEvent.queryCall = 1 := rfl
        exact ⟨by omega, by omega, by rfl, Or.inr ⟨c, hres1, by omega⟩⟩
      · have hres : retryLoop q s index (n + 1) attempt qc sc =
            ((retryLoop q s index n (attempt + 1) (qc + 1) sc).1,
             .queryCall :: .sleep (retryDelaySeconds * 2 ^ (attempt - 1)) ::
               (retryLoop q s index n (attempt + 1) (qc + 1) sc).2) := by
          simp [retryLoop, hq, hn]
        obtain ⟨ih1, ih2, ih3, ih4⟩ :=
          ih (by omega) (attempt + 1) (qc + 1) sc (by omega)
        rw [hres]
        simp only [count_query_cons_q, sleeps_cons_q]
        refine ⟨by omega, by omega, ?_, ?_⟩
        · rw [ih3]
          have hc1 : (retryLoop q s index n (attempt + 1) (qc + 1) sc).2.count
              RetryEvent.queryCall + 1 - 1 =
              ((retryLoop q s index n (attempt + 1) (qc + 1) sc).2.count
                RetryEvent.queryCall - 1) + 1 := by omega
          rw [hc1, range_map_pow_cons]
          have hfun : ∀ a : Nat, retryDelaySeconds * 2 ^ (attempt + 1 - 1 + a) =
              retryDelaySeconds * 2 ^ (attempt - 1 + 1 + a) := by
            intro a
            congr 1
            congr 1
            omega
          simp only [hfun]
        · rcases ih4 with ⟨w, hw⟩ | ⟨c2, hc2, hcnt⟩
          · exact Or.inl ⟨w, hw⟩
          · exact Or.inr ⟨c2, hc2, by omega⟩

/-- C4 (amended): every attempt of the per-segment retry loop re-runs both
phases starting with the query (one query call per attempt); there are
between 1 and `maxRetries` attempts in total; each failed non-final attempt
backs off with the exponentially increasing delay `2·2^(a-1)` seconds; and
the loop either returns the synthesized audio or, only when the final
(`maxRetries`-th) attempt fails, the wrapped per-segment error carrying the
underlying cause. -/
theorem processSegmentRetry_spec (q s : Nat → Except String (List Nat))
    (index : Nat) :
    1 ≤ (processSegmentRetry q s index).2.count RetryEvent.queryCall ∧
    (processSegmentRetry q s index).2.count RetryEvent.queryCall ≤ maxRetries ∧
    (processSegmentRetry q s index).2.filterMap sleepSecondsOf =
      (List.range ((processSegmentRetry q s index).2.count
        RetryEvent.queryCall - 1)).map (fun a => retryDelaySeconds * 2 ^ a) ∧
    ((∃ w, (processSegmentRetry q s index).1 = .ok w) ∨
      (∃ c, (processSegmentRetry q s index).1 = .error (mkApiFailMsg index c) ∧
        (processSegmentRetry q s index).2.count RetryEvent.queryCall =
          maxRetries)) := by
  obtain ⟨h1, h2, h3, h4⟩ :=
    retryLoop_spec q s index maxRetries (by decide) 1 0 0 (by decide)
  refine ⟨h1, h2, ?_, h4⟩
  simp only [processSegmentRetry] at h3 ⊢
  rw [h3]
  refine List.map_congr_left (fun a _ => ?_)
  norm_num

end Voicevox
